import Mathlib

/-!
Shallow embedding of the sparse-slot crate (src/src/lib.rs), the ordered
(linked-occupancy) slot map.  Machine integers: the slot generation is a
Rust u8, modelled as a Nat kept below 256 by taking `% 256` exactly where
the source performs wrapping arithmetic.  Rust `Vec<Entry<T>>` is a Lean
`List (Entry T)`; unchecked indexing (`self.items[i]`, which panics when
out of range) is modelled by `List.getElem?` with the panic case surfaced as
`Except.error` for the caller-chosen index of `get` and `remove`.
Internal accesses that follow link fields (always in range in any state
satisfying the occupancy-list invariant) are modelled with
`(·.get? i).getD Entry.default` and `List.set` (which is a no-op out of
range, a state no reachable container attains).
-/

namespace SparseSlotLib

/-- Identifier: `(index, generation)` pair; `generation` is a u8 in the source. -/
structure Id where
  index : Nat
  generation : Nat
deriving DecidableEq, Repr

/-- `Id::next`: same index, generation incremented with u8 wrap. -/
def Id.next (id : Id) : Id :=
  ⟨id.index, (id.generation + 1) % 256⟩

/-- Error enum `SparseSlotError` from the source. -/
inductive SparseSlotError where
  | IndexOutOfBounds : Nat → SparseSlotError
  | Occupied : Nat → SparseSlotError
  | IllegalZeroGeneration : SparseSlotError
deriving DecidableEq, Repr

/-- One slot (`Entry<T>`): generation, optional value, intrusive list links. -/
structure Entry (T : Type) where
  generation : Nat
  item : Option T
  next_index : Option Nat
  previous_index : Option Nat
deriving DecidableEq, Repr

/-- `Entry::default()`: generation 0, empty, unlinked. -/
def Entry.default {T : Type} : Entry T :=
  ⟨0, none, none, none⟩

/-- The container: fixed backing storage plus the occupancy-list head. -/
structure SparseSlot (T : Type) where
  items : List (Entry T)
  first_occupied : Option Nat
deriving DecidableEq, Repr

/-- `SparseSlot::new(capacity)`: `capacity` default entries, no head. -/
def SparseSlot.new {T : Type} (capacity : Nat) : SparseSlot T :=
  ⟨List.replicate capacity Entry.default, none⟩

/-- `SparseSlot::capacity`. -/
def SparseSlot.capacity {T : Type} (s : SparseSlot T) : Nat :=
  s.items.length

/-- `SparseSlot::len`: counts slots currently holding a value. -/
def SparseSlot.len {T : Type} (s : SparseSlot T) : Nat :=
  (s.items.filter (fun e => e.item.isSome)).length

/-- `SparseSlot::is_empty`. -/
def SparseSlot.isEmpty {T : Type} (s : SparseSlot T) : Bool :=
  s.len == 0

/-- The splice-point search loop inside `try_set`: walk the occupancy list
from the head, stopping at the first index greater than `idx`; returns the
final `(prev_index, next_index)` pair.  The source's `while let` loop is
given fuel (`try_set` passes the storage length, enough for any chain that
satisfies the occupancy invariant); a dangling link (out-of-range index,
which would panic in the source) stops the walk at a default entry. -/
def spliceLoop {T : Type} (items : List (Entry T)) (idx : Nat) :
    Nat → Option Nat → Option Nat → Option Nat × Option Nat
  | 0, prev, nxt => (prev, nxt)
  | fuel + 1, prev, nxt =>
    match nxt with
    | none => (prev, none)
    | some current =>
      if idx < current then (prev, some current)
      else
        spliceLoop items idx fuel (some current)
          (((items[current]?).getD Entry.default).next_index)

/-- The state `try_set` produces on its success path: splice the new entry
into the occupancy list between the walk's `prev_index` and `next_index`. -/
def try_set_core {T : Type} (s : SparseSlot T) (id : Id) (item : T) : SparseSlot T :=
  let pn := spliceLoop s.items id.index s.items.length none s.first_occupied
  let prev_index := pn.1
  let next_index := pn.2
  let items1 := s.items.set id.index ⟨id.generation, some item, next_index, prev_index⟩
  let items2 :=
    match prev_index with
    | some p => items1.set p { ((items1[p]?).getD Entry.default) with next_index := some id.index }
    | none => items1
  let first1 :=
    match prev_index with
    | some _ => s.first_occupied
    | none => some id.index
  let items3 :=
    match next_index with
    | some n => items2.set n { ((items2[n]?).getD Entry.default) with previous_index := some id.index }
    | none => items2
  ⟨items3, first1⟩

/-- `SparseSlot::try_set`: bounds check, occupancy check (the generation
mismatch check in the source is present but its rejection is commented
out), then splice the new entry into the occupancy list. -/
def SparseSlot.try_set {T : Type} (s : SparseSlot T) (id : Id) (item : T) :
    Except SparseSlotError (SparseSlot T) :=
  if s.items.length ≤ id.index then
    .error (.IndexOutOfBounds id.index)
  else
    let entry := (s.items[id.index]?).getD Entry.default
    if entry.item.isSome then
      .error (.Occupied id.index)
    else
      .ok (try_set_core s id item)

/-- The result `remove` produces on its success path: unlink the entry at
`id.index` (whose current state is `entry`), take its value, bump its
generation with u8 wrap and clear its link fields. -/
def remove_core {T : Type} (s : SparseSlot T) (id : Id) (entry : Entry T) :
    Option T × SparseSlot T :=
  let prev_index := entry.previous_index
  let next_index := entry.next_index
  let first1 := if s.first_occupied = some id.index then next_index else s.first_occupied
  let items1 :=
    match prev_index with
    | some p => s.items.set p { ((s.items[p]?).getD Entry.default) with next_index := next_index }
    | none => s.items
  let items2 :=
    match next_index with
    | some n => items1.set n { ((items1[n]?).getD Entry.default) with previous_index := prev_index }
    | none => items1
  let e2 := (items2[id.index]?).getD Entry.default
  let items3 := items2.set id.index ⟨(e2.generation + 1) % 256, none, none, none⟩
  (e2.item, ⟨items3, first1⟩)

/-- `SparseSlot::remove`: the first access `self.items[id.index]` is
unchecked in the source (panic modelled as `Except.error`); on a
generation match of an occupied slot the entry is unlinked, its value
taken, and its generation bumped with u8 wrap. -/
def SparseSlot.remove {T : Type} (s : SparseSlot T) (id : Id) :
    Except Unit (Option T × SparseSlot T) :=
  match s.items[id.index]? with
  | none => .error ()
  | some entry =>
    if entry.generation != id.generation || entry.item.isNone then
      .ok (none, s)
    else
      .ok (remove_core s id entry)

/-- `SparseSlot::clear`: take every value, bumping the generation of each
slot that held one; empty slots are untouched; head reset. -/
def SparseSlot.clear {T : Type} (s : SparseSlot T) : SparseSlot T :=
  ⟨s.items.map (fun e =>
      if e.item.isSome then ⟨(e.generation + 1) % 256, none, none, none⟩ else e),
    none⟩

/-- `SparseSlot::get`: unchecked index into storage (panic modelled as
`Except.error`), then generation gate, then the optional value. -/
def SparseSlot.get {T : Type} (s : SparseSlot T) (id : Id) : Except Unit (Option T) :=
  match s.items[id.index]? with
  | none => .error ()
  | some entry =>
    if entry.generation ≠ id.generation then .ok none else .ok entry.item

/-- `SparseSlot::get_mut`: checked lookup (`self.items.get_mut(id.index)?`),
so an out-of-range index yields `none` instead of a panic; then the same
generation gate.  Modelled by the value the returned reference exposes. -/
def SparseSlot.get_mut {T : Type} (s : SparseSlot T) (id : Id) : Option T :=
  match s.items[id.index]? with
  | none => none
  | some entry =>
    if entry.generation ≠ id.generation then none else entry.item

/-- `Iter::next` iterated to exhaustion: follow the occupancy list from
`cursor`, yielding `(Id(index, generation), value)` per occupied node.  A
node holding no value makes `next()` return `None`, ending consumption; a
dangling link (a source panic) is modelled as ending the walk.  Fuel as in
`spliceLoop`. -/
def iterFrom {T : Type} (items : List (Entry T)) :
    Nat → Option Nat → List (Id × T)
  | 0, _ => []
  | _ + 1, none => []
  | fuel + 1, some current =>
    match items[current]? with
    | none => []
    | some e =>
      match e.item with
      | none => []
      | some v => (⟨current, e.generation⟩, v) :: iterFrom items fuel e.next_index

/-- `SparseSlot::iter` collected to a list. -/
def SparseSlot.iter {T : Type} (s : SparseSlot T) : List (Id × T) :=
  iterFrom s.items s.items.length s.first_occupied

/-- One `next()` call of the `drain()` iterator: advance the cursor past
valueless nodes; at an occupied node take the value, bump the generation
(u8 wrap) and yield `Id(index, generation - 1)` (the source's plain `- 1`
on u8, wrap modelled).  Link fields and `first_occupied` are not touched,
exactly as in the source. -/
def drainStep {T : Type} (items : List (Entry T)) :
    Nat → Option Nat → Option ((Id × T) × List (Entry T) × Option Nat)
  | 0, _ => none
  | _ + 1, none => none
  | fuel + 1, some current =>
    match items[current]? with
    | none => none
    | some e =>
      match e.item with
      | none => drainStep items fuel e.next_index
      | some v =>
        let g1 := (e.generation + 1) % 256
        some ((⟨current, (g1 + 255) % 256⟩, v),
          items.set current ⟨g1, none, e.next_index, e.previous_index⟩,
          e.next_index)

/-- Consume `k` items of `drain()`: yielded pairs plus the storage and
cursor the iterator leaves behind. -/
def drainConsume {T : Type} (k : Nat) (items : List (Entry T)) (cursor : Option Nat) :
    List (Id × T) × List (Entry T) × Option Nat :=
  match k with
  | 0 => ([], items, cursor)
  | k + 1 =>
    match drainStep items items.length cursor with
    | none => ([], items, cursor)
    | some (pair, items1, cursor1) =>
      let r := drainConsume k items1 cursor1
      (pair :: r.1, r.2.1, r.2.2)

/-- The container after consuming `k` items of `drain()` and dropping the
iterator, with the pairs consumed: `drain` mutates only the entries, never
`first_occupied`. -/
def SparseSlot.drainTake {T : Type} (s : SparseSlot T) (k : Nat) :
    List (Id × T) × SparseSlot T :=
  let r := drainConsume k s.items s.first_occupied
  (r.1, ⟨r.2.1, s.first_occupied⟩)

/-- `SparseSlot::first_id`. -/
def SparseSlot.first_id {T : Type} (s : SparseSlot T) : Option Id :=
  s.first_occupied.map (fun index =>
    ⟨index, ((s.items[index]?).getD Entry.default).generation⟩)

-- Occupancy bookkeeping used by the specification-level statements.

/-- Whether the slot at `i` currently holds a value. -/
def occAt {T : Type} (items : List (Entry T)) (i : Nat) : Bool :=
  ((items[i]?).map (fun e => e.item.isSome)).getD false

/-- The indices of occupied slots, ascending (a front-to-back scan). -/
def occupiedIndices {T : Type} (items : List (Entry T)) : List Nat :=
  (List.range items.length).filter (occAt items)

/-- Modelled from the spec: the reference front-to-back scan of the backing
storage restricted to occupied slots, yielding each occupied slot's
`(Id(index, generation), value)` pair in index order. -/
def scanPairs {T : Type} (items : List (Entry T)) : List (Id × T) :=
  (List.range items.length).filterMap (fun i =>
    match items[i]? with
    | none => none
    | some e => e.item.map (fun v => (⟨i, e.generation⟩, v)))

/-- Chain segment: starting with back-link `prev` and cursor `cursor`, the
occupancy list passes exactly through the indices `L` (matching each
node's `previous_index` against the node before it) and leaves the state
`exitS = (prev, cursor)` behind. -/
def chainSeg {T : Type} (items : List (Entry T)) :
    Option Nat → Option Nat → List Nat → Option Nat × Option Nat → Bool
  | prev, cursor, [], exitS => prev == exitS.1 && cursor == exitS.2
  | prev, cursor, j :: rest, exitS =>
    match cursor with
    | none => false
    | some i =>
      i == j &&
      match items[i]? with
      | none => false
      | some e => e.previous_index == prev && chainSeg items (some i) e.next_index rest exitS

/-- The back-link left after traversing `L` from back-link `p`. -/
def endPrev (p : Option Nat) (L : List Nat) : Option Nat :=
  L.getLast?.or p

/-- A complete chain: traverses `L` and ends with cursor `none`. -/
def isChain {T : Type} (items : List (Entry T)) (p c : Option Nat) (L : List Nat) : Bool :=
  chainSeg items p c L (endPrev p L, none)

/-- The occupancy-list invariant: the doubly linked list rooted at
`first_occupied` passes exactly through the occupied indices in ascending
order, with mutually consistent links, and ends at `none`. -/
def Inv {T : Type} (s : SparseSlot T) : Prop :=
  isChain s.items none s.first_occupied (occupiedIndices s.items) = true

instance {T : Type} (s : SparseSlot T) : Decidable (Inv s) :=
  inferInstanceAs (Decidable (isChain s.items none s.first_occupied (occupiedIndices s.items) = true))

/-- The `(Id, value)` pair a slot contributes to a traversal, if occupied. -/
def pairAt {T : Type} (items : List (Entry T)) (i : Nat) : Option (Id × T) :=
  match items[i]? with
  | none => none
  | some e => e.item.map (fun v => (⟨i, e.generation⟩, v))

-- Basic occupancy lemmas -----------------------------------------------------

inductive Reachable {T : Type} : SparseSlot T → Prop
  | new (c : Nat) : Reachable (SparseSlot.new c)
  | set {s s' : SparseSlot T} {id : Id} {v : T} :
      Reachable s → s.try_set id v = Except.ok s' → Reachable s'
  | rem {s s' : SparseSlot T} {id : Id} {r : Option T} :
      Reachable s → s.remove id = Except.ok (r, s') → Reachable s'

def removeSeq {T : Type} (s : SparseSlot T) : List Id → SparseSlot T
  | [] => s
  | id :: rest =>
    match s.remove id with
    | .ok r => removeSeq r.2 rest
    | .error _ => s

def genItem {T : Type} (e : Entry T) : Nat × Option T :=
  (e.generation, e.item)

lemma occAt_of_get? {T : Type} {items : List (Entry T)} {i : Nat} {e : Entry T}
    (h : items[i]? = some e) : occAt items i = e.item.isSome := by
  simp [occAt, h]

lemma occAt_of_ge {T : Type} {items : List (Entry T)} {i : Nat}
    (h : items.length ≤ i) : occAt items i = false := by
  simp [occAt, List.getElem?_eq_none h]

lemma occAt_replicate {T : Type} (c i : Nat) :
    occAt (List.replicate c (Entry.default : Entry T)) i = false := by
  rcases Nat.lt_or_ge i c with h | h
  · simp [occAt, List.getElem?_replicate, h, Entry.default]
  · simp [occAt, List.getElem?_replicate, Nat.not_lt.mpr h]

lemma mem_occupiedIndices {T : Type} {items : List (Entry T)} {i : Nat} :
    i ∈ occupiedIndices items ↔ i < items.length ∧ occAt items i = true := by
  simp [occupiedIndices, List.mem_filter, List.mem_range]

lemma occupiedIndices_sorted {T : Type} (items : List (Entry T)) :
    (occupiedIndices items).Pairwise (· < ·) :=
  List.Pairwise.filter _ (List.sorted_lt_range items.length)

lemma occupiedIndices_nodup {T : Type} (items : List (Entry T)) :
    (occupiedIndices items).Nodup :=
  (List.nodup_range items.length).filter _

lemma occupiedIndices_length_le {T : Type} (items : List (Entry T)) :
    (occupiedIndices items).length ≤ items.length := by
  have := List.length_filter_le (occAt items) (List.range items.length)
  simpa [occupiedIndices] using this

lemma occAt_set_ne {T : Type} {items : List (Entry T)} {p i : Nat} (e : Entry T)
    (h : p ≠ i) : occAt (items.set p e) i = occAt items i := by
  simp [occAt, List.getElem?_set_ne h]

lemma occAt_set_self {T : Type} {items : List (Entry T)} {p : Nat} (e : Entry T)
    (h : p < items.length) : occAt (items.set p e) p = e.item.isSome := by
  simp [occAt, List.getElem?_set_eq_of_lt e h]

lemma occAt_set_keep {T : Type} {items : List (Entry T)} {p : Nat} {e : Entry T}
    (he : e.item = (((items[p]?).getD Entry.default)).item) (i : Nat) :
    occAt (items.set p e) i = occAt items i := by
  by_cases hpi : p = i
  · subst hpi
    by_cases hp : p < items.length
    · rcases List.getElem?_eq_getElem hp with h0
      rw [occAt_set_self e hp, occAt_of_get? h0]
      rw [h0] at he
      simp [he]
    · have hle : items.length ≤ p := Nat.le_of_not_lt hp
      have h1 : (items.set p e).length ≤ p := by
        simpa [List.length_set] using hle
      rw [occAt_of_ge h1, occAt_of_ge hle]
  · exact occAt_set_ne e hpi

-- chainSeg lemmas ------------------------------------------------------------

lemma chainSeg_nil_iff {T : Type} {items : List (Entry T)} {p c : Option Nat}
    {ex : Option Nat × Option Nat} :
    chainSeg items p c [] ex = true ↔ p = ex.1 ∧ c = ex.2 := by
  simp [chainSeg]

lemma chainSeg_cons_iff {T : Type} {items : List (Entry T)} {p c : Option Nat}
    {j : Nat} {rest : List Nat} {ex : Option Nat × Option Nat} :
    chainSeg items p c (j :: rest) ex = true ↔
      ∃ e, c = some j ∧ items[j]? = some e ∧ e.previous_index = p ∧
        chainSeg items (some j) e.next_index rest ex = true := by
  rcases c with _ | i
  · simp [chainSeg]
  · show (chainSeg items p (some i) (j :: rest) ex = true) ↔ _
    by_cases hij : i = j
    · subst hij
      rcases hg : items[i]? with _ | e
      · simp [chainSeg, hg]
      · simp [chainSeg, hg, and_assoc]
    · constructor
      · intro h
        exfalso
        have : (i == j) = true := by
          rcases hb : (i == j) with _ | _
          · rw [chainSeg, hb] at h
            simp at h
          · rfl
        exact hij (by simpa using this)
      · rintro ⟨e, he, _⟩
        exact absurd (by injection he) hij

lemma endPrev_nil (p : Option Nat) : endPrev p [] = p := rfl

lemma getLast?_cons_exists (a : Nat) (A' : List Nat) :
    ∃ x, (a :: A').getLast? = some x := by
  induction A' generalizing a with
  | nil => exact ⟨a, rfl⟩
  | cons b B ih =>
    rcases ih b with ⟨x, hx⟩
    exact ⟨x, by rw [List.getLast?_cons_cons]; exact hx⟩

lemma endPrev_cons (p : Option Nat) (j : Nat) (A : List Nat) :
    endPrev p (j :: A) = endPrev (some j) A := by
  rcases A with _ | ⟨a, A'⟩
  · rfl
  · rcases getLast?_cons_exists a A' with ⟨x, hx⟩
    unfold endPrev
    rw [List.getLast?_cons_cons, hx]
    rfl

lemma chainSeg_congr {T : Type} {items items' : List (Entry T)} :
    ∀ {L : List Nat} {p c : Option Nat} {ex : Option Nat × Option Nat},
      (∀ a ∈ L, items'[a]? = items[a]?) →
      (chainSeg items' p c L ex = true ↔ chainSeg items p c L ex = true)
  | [], p, c, ex, _ => by simp [chainSeg]
  | j :: rest, p, c, ex, h => by
    rw [chainSeg_cons_iff, chainSeg_cons_iff]
    constructor
    · rintro ⟨e, hc, hg, hp, htail⟩
      rw [h j (List.mem_cons_self j rest)] at hg
      refine ⟨e, hc, hg, hp, ?_⟩
      exact (chainSeg_congr (fun a ha => h a (List.mem_cons_of_mem _ ha))).mp htail
    · rintro ⟨e, hc, hg, hp, htail⟩
      rw [← h j (List.mem_cons_self j rest)] at hg
      refine ⟨e, hc, hg, hp, ?_⟩
      exact (chainSeg_congr (fun a ha => h a (List.mem_cons_of_mem _ ha))).mpr htail

lemma chainSeg_append_of {T : Type} {items : List (Entry T)} :
    ∀ {X Y : List Nat} {p c q d : Option Nat} {ex : Option Nat × Option Nat},
      chainSeg items p c X (q, d) = true → chainSeg items q d Y ex = true →
      chainSeg items p c (X ++ Y) ex = true
  | [], Y, p, c, q, d, ex, h1, h2 => by
    rcases chainSeg_nil_iff.mp h1 with ⟨hp, hc⟩
    subst hp; subst hc
    simpa using h2
  | j :: X', Y, p, c, q, d, ex, h1, h2 => by
    rcases chainSeg_cons_iff.mp h1 with ⟨e, hc, hg, hp, htail⟩
    subst hc
    rw [List.cons_append, chainSeg_cons_iff]
    exact ⟨e, rfl, hg, hp, chainSeg_append_of htail h2⟩

lemma chainSeg_append_split {T : Type} {items : List (Entry T)} :
    ∀ {X Y : List Nat} {p c : Option Nat} {ex : Option Nat × Option Nat},
      chainSeg items p c (X ++ Y) ex = true →
      ∃ q d, chainSeg items p c X (q, d) = true ∧ chainSeg items q d Y ex = true
  | [], Y, p, c, ex, h => ⟨p, c, by simp [chainSeg], by simpa using h⟩
  | j :: X', Y, p, c, ex, h => by
    rw [List.cons_append, chainSeg_cons_iff] at h
    rcases h with ⟨e, hc, hg, hp, htail⟩
    rcases chainSeg_append_split htail with ⟨q, d, hx, hy⟩
    exact ⟨q, d, chainSeg_cons_iff.mpr ⟨e, hc, hg, hp, hx⟩, hy⟩

lemma chainSeg_exitPrev {T : Type} {items : List (Entry T)} :
    ∀ {L : List Nat} {p c q d : Option Nat},
      chainSeg items p c L (q, d) = true → q = endPrev p L
  | [], p, c, q, d, h => by
    rcases chainSeg_nil_iff.mp h with ⟨hp, _⟩
    rw [endPrev_nil]
    exact hp.symm
  | j :: rest, p, c, q, d, h => by
    rcases chainSeg_cons_iff.mp h with ⟨e, _, _, _, htail⟩
    rw [endPrev_cons]
    exact chainSeg_exitPrev htail

lemma chainSeg_head_cursor {T : Type} {items : List (Entry T)} {p c : Option Nat}
    {j : Nat} {rest : List Nat} {ex : Option Nat × Option Nat}
    (h : chainSeg items p c (j :: rest) ex = true) : c = some j := by
  rcases chainSeg_cons_iff.mp h with ⟨e, hc, _⟩
  exact hc

lemma spliceLoop_chain {T : Type} {items : List (Entry T)} {k : Nat} :
    ∀ {L : List Nat} {p c q : Option Nat} {fuel : Nat},
      chainSeg items p c L (q, none) = true → L.length ≤ fuel →
      spliceLoop items k fuel p c =
        (endPrev p (L.takeWhile (fun a => decide (a ≤ k))),
          (L.dropWhile (fun a => decide (a ≤ k))).head?)
  | [], p, c, q, fuel, h, _ => by
    rcases chainSeg_nil_iff.mp h with ⟨_, hc⟩
    subst hc
    rcases fuel with _ | f
    · rfl
    · rfl
  | j :: rest, p, c, q, fuel, h, hfuel => by
    rcases chainSeg_cons_iff.mp h with ⟨e, hc, hg, hp, htail⟩
    subst hc
    rcases fuel with _ | f
    · exact absurd hfuel (by simp)
    · by_cases hjk : k < j
      · have hstop : spliceLoop items k (f + 1) p (some j) = (p, some j) := by
          simp [spliceLoop, hjk]
        have htw : decide (j ≤ k) = false := by
          simp [Nat.not_le.mpr hjk]
        rw [hstop, List.takeWhile_cons, List.dropWhile_cons, htw]
        rfl
      · have hstep : spliceLoop items k (f + 1) p (some j)
            = spliceLoop items k f (some j) e.next_index := by
          simp [spliceLoop, hjk, hg]
        have htw : decide (j ≤ k) = true := by
          simp [Nat.not_lt.mp hjk]
        rw [hstep, spliceLoop_chain htail (Nat.le_of_succ_le_succ hfuel),
          List.takeWhile_cons, List.dropWhile_cons, htw]
        simp [endPrev_cons]

lemma mem_of_mem_takeWhile {p : Nat → Bool} {l : List Nat} {a : Nat}
    (h : a ∈ l.takeWhile p) : a ∈ l :=
  (List.takeWhile_sublist p).subset h

lemma mem_of_mem_dropWhile {p : Nat → Bool} {l : List Nat} {a : Nat}
    (h : a ∈ l.dropWhile p) : a ∈ l :=
  (List.dropWhile_sublist p).subset h

lemma dropWhile_gt {k : Nat} :
    ∀ {L : List Nat}, L.Pairwise (· < ·) →
      ∀ b ∈ L.dropWhile (fun a => decide (a ≤ k)), k < b
  | [], _, b, hb => absurd hb (List.not_mem_nil b)
  | j :: rest, hp, b, hb => by
    rcases List.pairwise_cons.mp hp with ⟨hj, hrest⟩
    by_cases hjk : j ≤ k
    · rw [List.dropWhile_cons, if_pos (by simpa using hjk)] at hb
      exact dropWhile_gt hrest b hb
    · rw [List.dropWhile_cons, if_neg (by simpa using hjk)] at hb
      rcases List.mem_cons.mp hb with rfl | hb'
      · exact Nat.lt_of_not_le hjk
      · exact Nat.lt_trans (Nat.lt_of_not_le hjk) (hj b hb')

lemma pairwise_lt_nodup {L : List Nat} (h : L.Pairwise (· < ·)) : L.Nodup :=
  h.imp (fun hab => Nat.ne_of_lt hab)

lemma isAntisymmNatLt : IsAntisymm Nat (· < ·) :=
  ⟨fun a b h1 h2 => absurd h2 (Nat.lt_asymm h1)⟩

lemma occupiedIndices_insertAt {T : Type} {items items' : List (Entry T)} {k : Nat}
    (hlen : items'.length = items.length) (hk : k < items.length)
    (hok : occAt items k = false) (hok' : occAt items' k = true)
    (hother : ∀ i, i ≠ k → occAt items' i = occAt items i) :
    occupiedIndices items' =
      (occupiedIndices items).takeWhile (fun a => decide (a ≤ k)) ++
        k :: (occupiedIndices items).dropWhile (fun a => decide (a ≤ k)) := by
  haveI : IsAntisymm Nat (· < ·) := isAntisymmNatLt
  set L := occupiedIndices items with hL
  set A := L.takeWhile (fun a => decide (a ≤ k)) with hA
  set B := L.dropWhile (fun a => decide (a ≤ k)) with hB
  have hAB : A ++ B = L := List.takeWhile_append_dropWhile _ _
  have hLs : L.Pairwise (· < ·) := occupiedIndices_sorted items
  have hkL : k ∉ L := by
    intro hmem
    rw [mem_occupiedIndices] at hmem
    rw [hok] at hmem
    exact absurd hmem.2 (by simp)
  have hAlt : ∀ a ∈ A, a < k := by
    intro a ha
    have h1 : a ≤ k := by simpa using List.mem_takeWhile_imp ha
    have h2 : a ≠ k := by
      intro hak
      exact hkL (hak ▸ mem_of_mem_takeWhile ha)
    exact Nat.lt_of_le_of_ne h1 h2
  have hBgt : ∀ b ∈ B, k < b := fun b hb => dropWhile_gt hLs b hb
  have hRs : (A ++ k :: B).Pairwise (· < ·) := by
    rw [List.pairwise_append]
    refine ⟨List.Pairwise.sublist (List.takeWhile_sublist _) hLs, ?_, ?_⟩
    · rw [List.pairwise_cons]
      exact ⟨hBgt, List.Pairwise.sublist (List.dropWhile_sublist _) hLs⟩
    · intro a ha b hb
      rcases List.mem_cons.mp hb with rfl | hb'
      · exact hAlt a ha
      · exact Nat.lt_trans (hAlt a ha) (hBgt b hb')
  have hperm : List.Perm (occupiedIndices items') (A ++ k :: B) := by
    rw [List.perm_ext_iff_of_nodup (occupiedIndices_nodup items') (pairwise_lt_nodup hRs)]
    intro a
    rw [mem_occupiedIndices, hlen]
    by_cases hak : a = k
    · subst hak
      simp only [hk, hok', true_and]
      constructor
      · intro _
        exact List.mem_append_right _ (List.mem_cons_self _ _)
      · intro _
        trivial
    · rw [hother a hak]
      have hmemL : (a < items.length ∧ occAt items a = true) ↔ a ∈ L := by
        rw [hL, mem_occupiedIndices]
      rw [hmemL, ← hAB]
      simp only [List.mem_append, List.mem_cons]
      constructor
      · rintro (h | h)
        · exact Or.inl h
        · exact Or.inr (Or.inr h)
      · rintro (h | h | h)
        · exact Or.inl h
        · exact absurd h hak
        · exact Or.inr h
  exact List.eq_of_perm_of_sorted hperm (occupiedIndices_sorted items') hRs

lemma occupiedIndices_eraseAt {T : Type} {items items' : List (Entry T)} {r : Nat}
    {A B : List Nat}
    (hlen : items'.length = items.length)
    (hsplit : occupiedIndices items = A ++ r :: B)
    (hok' : occAt items' r = false)
    (hother : ∀ i, i ≠ r → occAt items' i = occAt items i) :
    occupiedIndices items' = A ++ B := by
  haveI : IsAntisymm Nat (· < ·) := isAntisymmNatLt
  have hLs : (A ++ r :: B).Pairwise (· < ·) := hsplit ▸ occupiedIndices_sorted items
  have hLn : (A ++ r :: B).Nodup := hsplit ▸ occupiedIndices_nodup items
  have hsub : List.Sublist (A ++ B) (A ++ r :: B) :=
    List.Sublist.append (List.Sublist.refl A) (List.sublist_cons_self r B)
  have hRs : (A ++ B).Pairwise (· < ·) := List.Pairwise.sublist hsub hLs
  have hrA : r ∉ A := by
    rcases List.nodup_append.mp hLn with ⟨_, _, hdisj⟩
    intro hmem
    exact hdisj hmem (List.mem_cons_self r B)
  have hrB : r ∉ B := by
    rcases List.nodup_append.mp hLn with ⟨_, hnB, _⟩
    exact (List.nodup_cons.mp hnB).1
  have hperm : List.Perm (occupiedIndices items') (A ++ B) := by
    rw [List.perm_ext_iff_of_nodup (occupiedIndices_nodup items') (pairwise_lt_nodup hRs)]
    intro a
    rw [mem_occupiedIndices, hlen]
    by_cases har : a = r
    · subst har
      rw [hok']
      simp only [List.mem_append]
      constructor
      · rintro ⟨_, h⟩
        exact absurd h (by simp)
      · rintro (h | h)
        · exact absurd h hrA
        · exact absurd h hrB
    · rw [hother a har]
      have hmemL : (a < items.length ∧ occAt items a = true) ↔ a ∈ A ++ r :: B := by
        rw [← hsplit, mem_occupiedIndices]
      rw [hmemL]
      simp only [List.mem_append, List.mem_cons]
      constructor
      · rintro (h | h | h)
        · exact Or.inl h
        · exact absurd h har
        · exact Or.inr h
      · rintro (h | h)
        · exact Or.inl h
        · exact Or.inr (Or.inr h)
  exact List.eq_of_perm_of_sorted hperm (occupiedIndices_sorted items') hRs

lemma chainSeg_mem_lt {T : Type} {items : List (Entry T)} :
    ∀ {L : List Nat} {p c : Option Nat} {ex : Option Nat × Option Nat},
      chainSeg items p c L ex = true → ∀ a ∈ L, a < items.length
  | [], _, _, _, _, a, ha => absurd ha (List.not_mem_nil a)
  | j :: rest, p, c, ex, h, a, ha => by
    rcases chainSeg_cons_iff.mp h with ⟨e, _, hg, _, htail⟩
    rcases List.mem_cons.mp ha with rfl | ha'
    · rcases List.getElem?_eq_some.mp hg with ⟨hlt, _⟩
      exact hlt
    · exact chainSeg_mem_lt htail a ha'

lemma occAt_eq_getD {T : Type} (items : List (Entry T)) (i : Nat) :
    occAt items i = ((items[i]?).getD Entry.default).item.isSome := by
  rcases h : items[i]? with _ | e
  · simp [occAt, h, Entry.default]
  · simp [occAt, h]

lemma try_set_eq_ok_of {T : Type} {s : SparseSlot T} {id : Id} (v : T)
    (hidx : id.index < s.items.length) (hemp : occAt s.items id.index = false) :
    s.try_set id v = Except.ok (try_set_core s id v) := by
  rw [occAt_eq_getD] at hemp
  rw [SparseSlot.try_set, if_neg (Nat.not_le.mpr hidx)]
  show (if ((s.items[id.index]?).getD Entry.default).item.isSome then _ else _) = _
  rw [hemp]
  rfl

lemma try_set_ok_elim {T : Type} {s s' : SparseSlot T} {id : Id} {v : T}
    (h : s.try_set id v = Except.ok s') :
    id.index < s.items.length ∧ occAt s.items id.index = false ∧
      s' = try_set_core s id v := by
  by_cases h1 : s.items.length ≤ id.index
  · have h' : s.try_set id v = Except.error (.IndexOutOfBounds id.index) := by
      rw [SparseSlot.try_set, if_pos h1]
    rw [h'] at h
    exact absurd h (by simp)
  · by_cases h2 : occAt s.items id.index = false
    · have heq := try_set_eq_ok_of v (Nat.lt_of_not_le h1) h2
      rw [heq] at h
      refine ⟨Nat.lt_of_not_le h1, h2, ?_⟩
      injection h with h
      exact h.symm
    · have h2' : occAt s.items id.index = true := by
        rcases hb : occAt s.items id.index with _ | _
        · exact absurd hb h2
        · rfl
      have h' : s.try_set id v = Except.error (.Occupied id.index) := by
        rw [occAt_eq_getD] at h2'
        rw [SparseSlot.try_set, if_neg h1]
        show (if ((s.items[id.index]?).getD Entry.default).item.isSome then _ else _) = _
        rw [h2', if_pos rfl]
      rw [h'] at h
      exact absurd h (by simp)

lemma remove_eq_stale_of {T : Type} {s : SparseSlot T} {id : Id} {e : Entry T}
    (hg : s.items[id.index]? = some e)
    (hguard : (e.generation != id.generation || e.item.isNone) = true) :
    s.remove id = Except.ok (none, s) := by
  rw [SparseSlot.remove, hg]
  simp only [hguard]
  rfl

lemma remove_eq_ok_of {T : Type} {s : SparseSlot T} {id : Id} {e : Entry T}
    (hg : s.items[id.index]? = some e)
    (hgen : e.generation = id.generation) (hitem : e.item.isSome = true) :
    s.remove id = Except.ok (remove_core s id e) := by
  rw [SparseSlot.remove, hg]
  have hguard : (e.generation != id.generation || e.item.isNone) = false := by
    rw [hgen]
    simp [Option.isNone_eq_false_iff, Option.isSome_iff_exists] at hitem ⊢
    rcases hitem with ⟨v, hv⟩
    simp [hv]
  simp only [hguard]
  rfl

lemma remove_ok_elim {T : Type} {s s' : SparseSlot T} {id : Id} {r : Option T}
    (h : s.remove id = Except.ok (r, s')) :
    ∃ e, s.items[id.index]? = some e ∧
      (((e.generation != id.generation || e.item.isNone) = true ∧ r = none ∧ s' = s) ∨
        (e.generation = id.generation ∧ e.item.isSome = true ∧
          (r, s') = remove_core s id e)) := by
  rcases hg : s.items[id.index]? with _ | e
  · rw [SparseSlot.remove, hg] at h
    exact absurd h (by simp)
  · refine ⟨e, rfl, ?_⟩
    rcases hguard : (e.generation != id.generation || e.item.isNone) with _ | _
    · right
      have h1 : s.remove id = Except.ok (remove_core s id e) := by
        rw [SparseSlot.remove, hg]
        simp only [hguard]
        rfl
      rw [h1] at h
      injection h with h
      rcases Bool.or_eq_false_iff.mp hguard with ⟨hgen, hnone⟩
      have hsome : e.item.isSome = true := by
        rcases hi : e.item with _ | v
        · rw [hi] at hnone
          exact absurd hnone (by simp)
        · rfl
      exact ⟨by simpa using hgen, hsome, h.symm⟩
    · left
      have h1 : s.remove id = Except.ok (none, s) := remove_eq_stale_of hg hguard
      rw [h1] at h
      injection h with h
      exact ⟨rfl, congrArg Prod.fst h.symm, congrArg Prod.snd h.symm⟩

-- Further endPrev and chain surgery lemmas -----------------------------------

lemma endPrev_append (p : Option Nat) (X Y : List Nat) :
    endPrev p (X ++ Y) = endPrev (endPrev p X) Y := by
  unfold endPrev
  rw [List.getLast?_append, Option.or_assoc]

lemma endPrev_concat (p : Option Nat) (X : List Nat) (a : Nat) :
    endPrev p (X ++ [a]) = some a := by
  rw [endPrev_append]
  rfl

lemma endPrev_cons_indep (p q : Option Nat) (j : Nat) (M : List Nat) :
    endPrev p (j :: M) = endPrev q (j :: M) := by
  rw [endPrev_cons, endPrev_cons]

/-- Rebuild a full chain whose head node's back-link was rewritten to
`pNew`, all other listed entries unchanged. -/
lemma chainSeg_shift {T : Type} {items items' : List (Entry T)} :
    ∀ {B : List Nat} {pOld pNew q : Option Nat},
      chainSeg items pOld B.head? B (q, none) = true →
      (∀ b B', B = b :: B' →
        items'[b]? = (items[b]?).map (fun e => { e with previous_index := pNew })) →
      (∀ a ∈ B.drop 1, items'[a]? = items[a]?) →
      chainSeg items' pNew B.head? B (endPrev pNew B, none) = true
  | [], pOld, pNew, q, hold, hhead, htail => by
    exact chainSeg_nil_iff.mpr ⟨rfl, rfl⟩
  | b :: B', pOld, pNew, q, hold, hhead, htail => by
    rcases chainSeg_cons_iff.mp hold with ⟨e, _, hg, _, holdtail⟩
    have hq : q = endPrev (some b) B' := chainSeg_exitPrev holdtail
    subst hq
    have hb' : items'[b]? = some { e with previous_index := pNew } := by
      rw [hhead b B' rfl, hg]
      rfl
    refine chainSeg_cons_iff.mpr ⟨{ e with previous_index := pNew }, rfl, hb', rfl, ?_⟩
    rw [endPrev_cons]
    show chainSeg items' (some b) e.next_index B' (endPrev (some b) B', none) = true
    rw [chainSeg_congr (fun a ha => htail a (by simpa using ha))]
    exact holdtail

/-- Rebuild a chain segment whose last node's forward link was rewritten to
`dNew`, all other listed entries unchanged. -/
lemma chainSeg_retarget {T : Type} {items items' : List (Entry T)}
    {A'' : List Nat} {pl : Nat} {p c dOld dNew q : Option Nat}
    (hold : chainSeg items p c (A'' ++ [pl]) (q, dOld) = true)
    (hpl : items'[pl]? = (items[pl]?).map (fun e => { e with next_index := dNew }))
    (hrest : ∀ a ∈ A'', items'[a]? = items[a]?) :
    chainSeg items' p c (A'' ++ [pl]) (q, dNew) = true := by
  rcases chainSeg_append_split hold with ⟨q2, d2, h1, h2⟩
  rcases chainSeg_cons_iff.mp h2 with ⟨e, hd2, hg, hprev, htaile⟩
  rcases chainSeg_nil_iff.mp htaile with ⟨hq, _⟩
  have h1' : chainSeg items' p c A'' (q2, d2) = true := by
    rw [chainSeg_congr hrest]
    exact h1
  refine chainSeg_append_of h1' ?_
  have hpl' : items'[pl]? = some { e with next_index := dNew } := by
    rw [hpl, hg]
    rfl
  exact chainSeg_cons_iff.mpr ⟨{ e with next_index := dNew }, hd2, hpl', hprev,
    chainSeg_nil_iff.mpr ⟨hq, rfl⟩⟩

/-- Split a complete chain over `A ++ B` into its two halves, with the
junction state determined by `A` and `B`. -/
lemma chain_split {T : Type} {items : List (Entry T)} {A B : List Nat}
    {p c ep : Option Nat}
    (h : chainSeg items p c (A ++ B) (ep, none) = true) :
    chainSeg items p c A (endPrev p A, B.head?) = true ∧
      chainSeg items (endPrev p A) B.head? B (ep, none) = true := by
  rcases chainSeg_append_split h with ⟨q, d, h1, h2⟩
  have hq : q = endPrev p A := chainSeg_exitPrev h1
  subst hq
  have hd : d = B.head? := by
    rcases B with _ | ⟨b, B'⟩
    · exact (chainSeg_nil_iff.mp h2).2
    · exact chainSeg_head_cursor h2
  subst hd
  exact ⟨h1, h2⟩

lemma inv_try_set {T : Type} {s s' : SparseSlot T} {id : Id} {v : T}
    (hinv : Inv s) (h : s.try_set id v = Except.ok s') : Inv s' := by
  rcases try_set_ok_elim h with ⟨hidx, hemp, hs'⟩
  subst hs'
  have hchain : chainSeg s.items none s.first_occupied (occupiedIndices s.items)
      (endPrev none (occupiedIndices s.items), none) = true := hinv
  have hLlen : (occupiedIndices s.items).length ≤ s.items.length :=
    occupiedIndices_length_le s.items
  have hwalk := spliceLoop_chain (k := id.index) hchain hLlen
  generalize hA : (occupiedIndices s.items).takeWhile (fun a => decide (a ≤ id.index)) = A at hwalk
  generalize hB : (occupiedIndices s.items).dropWhile (fun a => decide (a ≤ id.index)) = B at hwalk
  have hAB : A ++ B = occupiedIndices s.items := by
    rw [← hA, ← hB]
    exact List.takeWhile_append_dropWhile _ _
  have hkL : id.index ∉ occupiedIndices s.items := by
    intro hm
    rw [mem_occupiedIndices, hemp] at hm
    exact absurd hm.2 (by simp)
  have hLs := occupiedIndices_sorted s.items
  have hLn := occupiedIndices_nodup s.items
  have hAmem : ∀ a ∈ A, a ∈ occupiedIndices s.items := by
    rw [← hA]
    exact fun a ha => mem_of_mem_takeWhile ha
  have hBmem : ∀ b ∈ B, b ∈ occupiedIndices s.items := by
    rw [← hB]
    exact fun b hb => mem_of_mem_dropWhile hb
  have hAk : ∀ a ∈ A, a ≠ id.index := fun a ha hak => hkL (hak ▸ hAmem a ha)
  have hBk : ∀ b ∈ B, b ≠ id.index := fun b hb hbk => hkL (hbk ▸ hBmem b hb)
  have hABn : (A ++ B).Nodup := by
    rw [hAB]
    exact hLn
  rw [← hAB] at hchain
  have hsplit := chain_split hchain
  have hins : ∀ (items' : List (Entry T)), items'.length = s.items.length →
      occAt items' id.index = true →
      (∀ i, i ≠ id.index → occAt items' i = occAt s.items i) →
      occupiedIndices items' = A ++ id.index :: B := by
    intro items' h1 h2 h3
    have h4 := occupiedIndices_insertAt (k := id.index) h1 hidx hemp h2 h3
    rw [hA, hB] at h4
    exact h4
  rcases List.eq_nil_or_concat A with rfl | ⟨A2, pl, rfl⟩
  · -- A empty: new entry becomes the list head
    rcases B with _ | ⟨b, B'⟩
    · -- B empty too: singleton chain
      have hw : spliceLoop s.items id.index s.items.length none s.first_occupied
          = (none, none) := hwalk
      have hcore : try_set_core s id v =
          ⟨s.items.set id.index ⟨id.generation, some v, none, none⟩, some id.index⟩ := by
        unfold try_set_core
        rw [hw]
      rw [hcore]
      have hocc1 : occupiedIndices
          (s.items.set id.index ⟨id.generation, some v, none, none⟩)
          = [] ++ id.index :: [] := by
        apply hins
        · exact List.length_set s.items id.index _
        · rw [occAt_set_self _ hidx]
          rfl
        · intro i hi
          exact occAt_set_ne _ (fun hh => hi hh.symm)
      show chainSeg _ none (some id.index) (occupiedIndices _) (endPrev none (occupiedIndices _), none) = true
      rw [hocc1]
      refine chainSeg_cons_iff.mpr ⟨⟨id.generation, some v, none, none⟩, rfl, ?_, rfl, ?_⟩
      · exact List.getElem?_set_eq_of_lt _ hidx
      · exact chainSeg_nil_iff.mpr ⟨rfl, rfl⟩
    · -- B nonempty: new head links to old head b
      have hw : spliceLoop s.items id.index s.items.length none s.first_occupied
          = (none, some b) := hwalk
      have hcore : try_set_core s id v =
          ⟨(s.items.set id.index ⟨id.generation, some v, some b, none⟩).set b
              { (((s.items.set id.index ⟨id.generation, some v, some b, none⟩)[b]?).getD Entry.default) with
                  previous_index := some id.index },
            some id.index⟩ := by
        unfold try_set_core
        rw [hw]
      rcases chainSeg_cons_iff.mp hsplit.2 with ⟨eb, hcb, hgeb, hprevb, htailb⟩
      have hbB : b ∈ b :: B' := List.mem_cons_self _ _
      have hbk : b ≠ id.index := hBk b hbB
      have hkb : id.index ≠ b := Ne.symm hbk
      have hblt : b < s.items.length := (mem_occupiedIndices.mp (hBmem b hbB)).1
      have hbB' : b ∉ B' := by
        have h5 : (b :: B').Nodup := by simpa using hABn
        exact (List.nodup_cons.mp h5).1
      set items1 := s.items.set id.index ⟨id.generation, some v, some b, none⟩ with hitems1
      set items3 := items1.set b
          { ((items1[b]?).getD Entry.default) with previous_index := some id.index } with hitems3
      have hitems1b : items1[b]? = some eb := by
        rw [hitems1, List.getElem?_set_ne hkb, hgeb]
      have hk3 : items3[id.index]? = some ⟨id.generation, some v, some b, none⟩ := by
        rw [hitems3, List.getElem?_set_ne hbk, hitems1, List.getElem?_set_eq_of_lt _ hidx]
      have hb3 : items3[b]? = some { eb with previous_index := some id.index } := by
        have hb1 : b < items1.length := by
          rw [hitems1, List.length_set]
          exact hblt
        rw [hitems3, List.getElem?_set_eq_of_lt _ hb1, hitems1b]
        rfl
      have hocc3eq : ∀ i, occAt items3 i = occAt items1 i := fun i =>
        occAt_set_keep
          (e := { ((items1[b]?).getD Entry.default) with previous_index := some id.index }) rfl i
      have hocc3 : occupiedIndices items3 = [] ++ id.index :: b :: B' := by
        apply hins
        · rw [hitems3, List.length_set, hitems1, List.length_set]
        · rw [hocc3eq, hitems1, occAt_set_self _ hidx]
          rfl
        · intro i hi
          rw [hocc3eq i, hitems1, occAt_set_ne _ (fun hh => hi hh.symm)]
      rw [hcore]
      show chainSeg items3 none (some id.index) (occupiedIndices items3)
          (endPrev none (occupiedIndices items3), none) = true
      rw [hocc3, List.nil_append]
      have hshift : chainSeg items3 (some id.index) ((b :: B').head?) (b :: B')
          (endPrev (some id.index) (b :: B'), none) = true := by
        apply chainSeg_shift hsplit.2
        · intro b0 B0 heq
          injection heq with h1 h2
          subst h1
          rw [hb3, hgeb]
          rfl
        · intro a ha
          have haB' : a ∈ B' := by simpa using ha
          have hba : b ≠ a := fun hh => hbB' (hh ▸ haB')
          have hka : id.index ≠ a :=
            Ne.symm (hBk a (List.mem_cons_of_mem _ haB'))
          rw [hitems3, List.getElem?_set_ne hba, hitems1, List.getElem?_set_ne hka]
      refine chainSeg_cons_iff.mpr ⟨⟨id.generation, some v, some b, none⟩, rfl, hk3, rfl, ?_⟩
      rw [endPrev_cons]
      exact hshift
  · -- A nonempty: splice after its last element pl
    simp only [List.concat_eq_append] at hA hchain hwalk hAB hAmem hAk hABn hsplit hins
    rw [endPrev_concat] at hwalk
    have hplA : pl ∈ A2 ++ [pl] := List.mem_append_right _ (List.mem_cons_self _ _)
    have hplL : pl ∈ occupiedIndices s.items := hAmem pl hplA
    have hpllt : pl < s.items.length := (mem_occupiedIndices.mp hplL).1
    have hplk : pl ≠ id.index := hAk pl hplA
    have hkpl : id.index ≠ pl := Ne.symm hplk
    have hAnodup : (A2 ++ [pl]).Nodup := (List.nodup_append.mp hABn).1
    have hdisj : List.Disjoint (A2 ++ [pl]) B := (List.nodup_append.mp hABn).2.2
    have hplA2 : pl ∉ A2 := fun hmem =>
      (List.nodup_append.mp hAnodup).2.2 hmem (List.mem_cons_self _ _)
    have hplB : pl ∉ B := fun hb => hdisj hplA hb
    have hgepl : s.items[pl]? = some s.items[pl] := List.getElem?_eq_getElem hpllt
    rcases B with _ | ⟨b, B'⟩
    · -- B empty: new entry becomes the last element
      have hw : spliceLoop s.items id.index s.items.length none s.first_occupied
          = (some pl, none) := hwalk
      have hcore : try_set_core s id v =
          ⟨(s.items.set id.index ⟨id.generation, some v, none, some pl⟩).set pl
              { (((s.items.set id.index ⟨id.generation, some v, none, some pl⟩)[pl]?).getD Entry.default) with
                  next_index := some id.index },
            s.first_occupied⟩ := by
        unfold try_set_core
        rw [hw]
      set items1 := s.items.set id.index ⟨id.generation, some v, none, some pl⟩ with hitems1
      set items2 := items1.set pl
          { ((items1[pl]?).getD Entry.default) with next_index := some id.index } with hitems2
      have hitems1pl : items1[pl]? = s.items[pl]? := by
        rw [hitems1, List.getElem?_set_ne hkpl]
      have hpl1lt : pl < items1.length := by
        rw [hitems1, List.length_set]
        exact hpllt
      have hpl2 : items2[pl]? = (s.items[pl]?).map
          (fun e => { e with next_index := some id.index }) := by
        rw [hitems2, List.getElem?_set_eq_of_lt _ hpl1lt, hitems1pl, hgepl]
        rfl
      have hk2 : items2[id.index]? = some ⟨id.generation, some v, none, some pl⟩ := by
        rw [hitems2, List.getElem?_set_ne hplk, hitems1, List.getElem?_set_eq_of_lt _ hidx]
      have hocc2eq : ∀ i, occAt items2 i = occAt items1 i := fun i =>
        occAt_set_keep
          (e := { ((items1[pl]?).getD Entry.default) with next_index := some id.index }) rfl i
      have hocc2 : occupiedIndices items2 = (A2 ++ [pl]) ++ id.index :: [] := by
        apply hins
        · rw [hitems2, List.length_set, hitems1, List.length_set]
        · rw [hocc2eq, hitems1, occAt_set_self _ hidx]
          rfl
        · intro i hi
          rw [hocc2eq i, hitems1, occAt_set_ne _ (fun hh => hi hh.symm)]
      rw [hcore]
      show chainSeg items2 none s.first_occupied (occupiedIndices items2)
          (endPrev none (occupiedIndices items2), none) = true
      rw [hocc2]
      have hApart : chainSeg items2 none s.first_occupied (A2 ++ [pl])
          (endPrev none (A2 ++ [pl]), some id.index) = true := by
        apply chainSeg_retarget hsplit.1 hpl2
        intro a ha
        have hpla : pl ≠ a := fun hh => hplA2 (hh ▸ ha)
        have hka : id.index ≠ a := Ne.symm (hAk a (List.mem_append_left _ ha))
        rw [hitems2, List.getElem?_set_ne hpla, hitems1, List.getElem?_set_ne hka]
      refine chainSeg_append_of hApart ?_
      refine chainSeg_cons_iff.mpr ⟨⟨id.generation, some v, none, some pl⟩, rfl, hk2,
        (endPrev_concat none A2 pl).symm, ?_⟩
      refine chainSeg_nil_iff.mpr ⟨?_, rfl⟩
      rw [endPrev_concat]
    · -- B nonempty: full splice between pl and b
      have hw : spliceLoop s.items id.index s.items.length none s.first_occupied
          = (some pl, some b) := hwalk
      rcases chainSeg_cons_iff.mp hsplit.2 with ⟨eb, hcb, hgeb, hprevb, htailb⟩
      have hbB : b ∈ b :: B' := List.mem_cons_self _ _
      have hbk : b ≠ id.index := hBk b hbB
      have hkb : id.index ≠ b := Ne.symm hbk
      have hblt : b < s.items.length := (mem_occupiedIndices.mp (hBmem b hbB)).1
      have hplb : pl ≠ b := fun hh => hplB (hh ▸ hbB)
      have hbpl : b ≠ pl := Ne.symm hplb
      have hbB' : b ∉ B' := by
        have h5 : (b :: B').Nodup := (List.nodup_append.mp hABn).2.1
        exact (List.nodup_cons.mp h5).1
      have hcore : try_set_core s id v =
          ⟨((s.items.set id.index ⟨id.generation, some v, some b, some pl⟩).set pl
              { (((s.items.set id.index ⟨id.generation, some v, some b, some pl⟩)[pl]?).getD Entry.default) with
                  next_index := some id.index }).set b
              { ((((s.items.set id.index ⟨id.generation, some v, some b, some pl⟩).set pl
                  { (((s.items.set id.index ⟨id.generation, some v, some b, some pl⟩)[pl]?).getD Entry.default) with
                      next_index := some id.index })[b]?).getD Entry.default) with
                  previous_index := some id.index },
            s.first_occupied⟩ := by
        unfold try_set_core
        rw [hw]
      set items1 := s.items.set id.index ⟨id.generation, some v, some b, some pl⟩ with hitems1
      set items2 := items1.set pl
          { ((items1[pl]?).getD Entry.default) with next_index := some id.index } with hitems2
      set items3 := items2.set b
          { ((items2[b]?).getD Entry.default) with previous_index := some id.index } with hitems3
      have hitems1pl : items1[pl]? = s.items[pl]? := by
        rw [hitems1, List.getElem?_set_ne hkpl]
      have hpl1lt : pl < items1.length := by
        rw [hitems1, List.length_set]
        exact hpllt
      have hitems2b : items2[b]? = some eb := by
        rw [hitems2, List.getElem?_set_ne hplb, hitems1, List.getElem?_set_ne hkb, hgeb]
      have hb2lt : b < items2.length := by
        rw [hitems2, List.length_set, hitems1, List.length_set]
        exact hblt
      have hk3 : items3[id.index]? = some ⟨id.generation, some v, some b, some pl⟩ := by
        rw [hitems3, List.getElem?_set_ne hbk, hitems2, List.getElem?_set_ne hplk,
          hitems1, List.getElem?_set_eq_of_lt _ hidx]
      have hpl3 : items3[pl]? = (s.items[pl]?).map
          (fun e => { e with next_index := some id.index }) := by
        rw [hitems3, List.getElem?_set_ne hbpl, hitems2,
          List.getElem?_set_eq_of_lt _ hpl1lt, hitems1pl, hgepl]
        rfl
      have hb3 : items3[b]? = some { eb with previous_index := some id.index } := by
        rw [hitems3, List.getElem?_set_eq_of_lt _ hb2lt, hitems2b]
        rfl
      have hocc3eq : ∀ i, occAt items3 i = occAt items1 i := fun i => by
        rw [hitems3]
        rw [occAt_set_keep
          (e := { ((items2[b]?).getD Entry.default) with previous_index := some id.index }) rfl i]
        rw [hitems2]
        rw [occAt_set_keep
          (e := { ((items1[pl]?).getD Entry.default) with next_index := some id.index }) rfl i]
      have hocc3 : occupiedIndices items3 = (A2 ++ [pl]) ++ id.index :: b :: B' := by
        apply hins
        · rw [hitems3, List.length_set, hitems2, List.length_set, hitems1, List.length_set]
        · rw [hocc3eq, hitems1, occAt_set_self _ hidx]
          rfl
        · intro i hi
          rw [hocc3eq i, hitems1, occAt_set_ne _ (fun hh => hi hh.symm)]
      rw [hcore]
      show chainSeg items3 none s.first_occupied (occupiedIndices items3)
          (endPrev none (occupiedIndices items3), none) = true
      rw [hocc3]
      have hApart : chainSeg items3 none s.first_occupied (A2 ++ [pl])
          (endPrev none (A2 ++ [pl]), some id.index) = true := by
        apply chainSeg_retarget hsplit.1 hpl3
        intro a ha
        have hba : b ≠ a := fun hh =>
          hdisj (List.mem_append_left _ (hh ▸ ha)) (hh ▸ hbB)
        have hpla : pl ≠ a := fun hh => hplA2 (hh ▸ ha)
        have hka : id.index ≠ a := Ne.symm (hAk a (List.mem_append_left _ ha))
        rw [hitems3, List.getElem?_set_ne hba, hitems2, List.getElem?_set_ne hpla,
          hitems1, List.getElem?_set_ne hka]
      have hshift : chainSeg items3 (some id.index) ((b :: B').head?) (b :: B')
          (endPrev (some id.index) (b :: B'), none) = true := by
        apply chainSeg_shift hsplit.2
        · intro b0 B0 heq
          injection heq with h1 h2
          subst h1
          rw [hb3, hgeb]
          rfl
        · intro a ha
          have haB' : a ∈ B' := by simpa using ha
          have hba : b ≠ a := fun hh => hbB' (hh ▸ haB')
          have hpla : pl ≠ a := fun hh => hplB (hh ▸ List.mem_cons_of_mem _ haB')
          have hka : id.index ≠ a :=
            Ne.symm (hBk a (List.mem_cons_of_mem _ haB'))
          rw [hitems3, List.getElem?_set_ne hba, hitems2, List.getElem?_set_ne hpla,
            hitems1, List.getElem?_set_ne hka]
      refine chainSeg_append_of hApart ?_
      refine chainSeg_cons_iff.mpr ⟨⟨id.generation, some v, some b, some pl⟩, rfl, hk3,
        (endPrev_concat none A2 pl).symm, ?_⟩
      have hE : endPrev none ((A2 ++ [pl]) ++ id.index :: b :: B')
          = endPrev (some id.index) (b :: B') := by
        rw [endPrev_append, endPrev_concat, endPrev_cons]
      rw [hE]
      exact hshift

lemma chainSeg_cursor_mem {T : Type} {items : List (Entry T)} {p c : Option Nat}
    {X : List Nat} {ex : Option Nat × Option Nat}
    (h : chainSeg items p c X ex = true) (hne : X ≠ []) :
    ∃ a ∈ X, c = some a := by
  rcases X with _ | ⟨j, rest⟩
  · exact absurd rfl hne
  · exact ⟨j, List.mem_cons_self _ _, chainSeg_head_cursor h⟩

lemma inv_remove {T : Type} {s s' : SparseSlot T} {id : Id} {r : Option T}
    (hinv : Inv s) (h : s.remove id = Except.ok (r, s')) : Inv s' := by
  rcases remove_ok_elim h with ⟨e, hge, hcase⟩
  rcases hcase with ⟨_, _, rfl⟩ | ⟨hgen, hsome, hcore0⟩
  · exact hinv
  have hs' : s' = (remove_core s id e).2 := congrArg Prod.snd hcore0
  subst hs'
  have hocck : occAt s.items id.index = true := by
    rw [occAt_of_get? hge, hsome]
  obtain ⟨hklt, -⟩ := List.getElem?_eq_some.mp hge
  have hkL : id.index ∈ occupiedIndices s.items := mem_occupiedIndices.mpr ⟨hklt, hocck⟩
  obtain ⟨A, B, hLsplit⟩ := List.append_of_mem hkL
  have hchain : chainSeg s.items none s.first_occupied (A ++ id.index :: B)
      (endPrev none (A ++ id.index :: B), none) = true := by
    rw [← hLsplit]
    exact hinv
  have hLn : (A ++ id.index :: B).Nodup := hLsplit ▸ occupiedIndices_nodup s.items
  have hkA : id.index ∉ A := fun ha =>
    (List.nodup_append.mp hLn).2.2 ha (List.mem_cons_self _ _)
  have hkB : id.index ∉ B :=
    (List.nodup_cons.mp (List.nodup_append.mp hLn).2.1).1
  have hABdisj : List.Disjoint A (id.index :: B) := (List.nodup_append.mp hLn).2.2
  have hmem : ∀ a, a ∈ A ++ id.index :: B → a < s.items.length := by
    intro a ha
    have ha2 : a ∈ occupiedIndices s.items := hLsplit ▸ ha
    exact (mem_occupiedIndices.mp ha2).1
  have hsplit := chain_split hchain
  rcases chainSeg_cons_iff.mp hsplit.2 with ⟨ek, hck, hgek, hprevk, htailk⟩
  have hek : ek = e := by
    rw [hge] at hgek
    injection hgek with hh
    exact hh.symm
  subst hek
  have hnext : ek.next_index = B.head? := by
    rcases B with _ | ⟨b, B'⟩
    · exact (chainSeg_nil_iff.mp htailk).2
    · exact chainSeg_head_cursor htailk
  have hera : ∀ (items' : List (Entry T)), items'.length = s.items.length →
      occAt items' id.index = false →
      (∀ i, i ≠ id.index → occAt items' i = occAt s.items i) →
      occupiedIndices items' = A ++ B :=
    fun items' h1 h2 h3 => occupiedIndices_eraseAt h1 hLsplit h2 h3
  rcases List.eq_nil_or_concat A with rfl | ⟨A2, pl, rfl⟩
  · -- removing the head of the list
    have hfirst : s.first_occupied = some id.index := (chainSeg_nil_iff.mp hsplit.1).2
    have hprev1 : ek.previous_index = none := hprevk.trans (endPrev_nil none)
    rcases B with _ | ⟨b, B'⟩
    · -- the only element
      have hnext1 : ek.next_index = none := hnext
      have hcore : (remove_core s id ek).2 =
          ⟨s.items.set id.index
              ⟨((((s.items[id.index]?).getD Entry.default).generation) + 1) % 256,
                none, none, none⟩, none⟩ := by
        unfold remove_core
        simp only [hprev1, hnext1, if_pos hfirst]
      rw [hcore]
      have hocc : occupiedIndices (s.items.set id.index
          ⟨((((s.items[id.index]?).getD Entry.default).generation) + 1) % 256,
            none, none, none⟩) = ([] : List Nat) ++ [] := by
        apply hera
        · exact List.length_set s.items id.index _
        · rw [occAt_set_self _ hklt]
          rfl
        · intro i hi
          exact occAt_set_ne _ (fun hh => hi hh.symm)
      show chainSeg _ none none (occupiedIndices _) (endPrev none (occupiedIndices _), none) = true
      rw [hocc]
      exact chainSeg_nil_iff.mpr ⟨rfl, rfl⟩
    · -- head removed, b becomes the new head
      have hnext1 : ek.next_index = some b := hnext
      have hbk : b ≠ id.index := fun hh => hkB (hh ▸ List.mem_cons_self _ _)
      have hkb : id.index ≠ b := Ne.symm hbk
      have hblt : b < s.items.length := hmem b (List.mem_append_right _ (by simp))
      have hbB' : b ∉ B' :=
        (List.nodup_cons.mp
          (List.nodup_cons.mp (List.nodup_append.mp hLn).2.1).2).1
      have hcore : (remove_core s id ek).2 =
          ⟨((s.items.set b
              { ((s.items[b]?).getD Entry.default) with previous_index := none }).set id.index
              ⟨(((((s.items.set b
                  { ((s.items[b]?).getD Entry.default) with previous_index := none })[id.index]?).getD
                    Entry.default).generation) + 1) % 256, none, none, none⟩),
            some b⟩ := by
        unfold remove_core
        simp only [hprev1, hnext1, if_pos hfirst]
      rw [hcore]
      set items2 := s.items.set b
          { ((s.items[b]?).getD Entry.default) with previous_index := none } with hitems2
      set items3 := items2.set id.index
          ⟨((((items2[id.index]?).getD Entry.default).generation) + 1) % 256,
            none, none, none⟩ with hitems3
      rcases chainSeg_cons_iff.mp htailk with ⟨eb, hcb, hgeb, hprevb, htailb⟩
      have hk2lt : id.index < items2.length := by
        rw [hitems2, List.length_set]
        exact hklt
      have hocc2eq : ∀ i, occAt items2 i = occAt s.items i := fun i =>
        occAt_set_keep
          (e := { ((s.items[b]?).getD Entry.default) with previous_index := none }) rfl i
      have hocc : occupiedIndices items3 = ([] : List Nat) ++ b :: B' := by
        apply hera
        · rw [hitems3, List.length_set, hitems2, List.length_set]
        · rw [hitems3, occAt_set_self _ hk2lt]
          rfl
        · intro i hi
          rw [hitems3, occAt_set_ne _ (fun hh => hi hh.symm), hocc2eq i]
      show chainSeg items3 none (some b) (occupiedIndices items3)
          (endPrev none (occupiedIndices items3), none) = true
      rw [hocc, List.nil_append]
      have hold1 : chainSeg s.items (some id.index) ((b :: B').head?) (b :: B')
          (endPrev none ([] ++ id.index :: b :: B'), none) = true := by
        show chainSeg s.items (some id.index) (some b) _ _ = true
        rw [← hnext1]
        exact htailk
      have hshift : chainSeg items3 none ((b :: B').head?) (b :: B')
          (endPrev none (b :: B'), none) = true := by
        apply chainSeg_shift hold1
        · intro b0 B0 heq
          injection heq with h1 h2
          subst h1
          have hb2 : items3[b]? = some { ((s.items[b]?).getD Entry.default) with
              previous_index := none } := by
            rw [hitems3, List.getElem?_set_ne hkb, hitems2]
            exact List.getElem?_set_eq_of_lt _ hblt
          rw [hb2, hgeb]
          rfl
        · intro a ha
          have haB' : a ∈ B' := by simpa using ha
          have hba : b ≠ a := fun hh => hbB' (hh ▸ haB')
          have hka : id.index ≠ a := fun hh =>
            hkB (hh ▸ List.mem_cons_of_mem _ haB')
          rw [hitems3, List.getElem?_set_ne hka, hitems2, List.getElem?_set_ne hba]
      exact hshift
  · -- removing after a nonempty prefix ending at pl
    simp only [List.concat_eq_append] at hLsplit hchain hLn hkA hABdisj hmem hsplit hera hprevk htailk
    have hplA : pl ∈ A2 ++ [pl] := List.mem_append_right _ (List.mem_cons_self _ _)
    have hpllt : pl < s.items.length := hmem pl (List.mem_append_left _ hplA)
    have hplk : pl ≠ id.index := fun hh => hkA (hh ▸ hplA)
    have hkpl : id.index ≠ pl := Ne.symm hplk
    have hplA2 : pl ∉ A2 := fun hmem2 =>
      (List.nodup_append.mp (List.nodup_append.mp hLn).1).2.2 hmem2 (List.mem_cons_self _ _)
    have hprev1 : ek.previous_index = some pl := hprevk.trans (endPrev_concat none A2 pl)
    obtain ⟨a0, ha0A, hfc⟩ := chainSeg_cursor_mem hsplit.1 (by simp)
    have hfne : ¬ s.first_occupied = some id.index := by
      rw [hfc]
      intro heq
      injection heq with heq2
      exact hkA (heq2 ▸ ha0A)
    have hgepl : s.items[pl]? = some s.items[pl] := List.getElem?_eq_getElem hpllt
    rcases B with _ | ⟨b, B'⟩
    · -- removing the last element
      have hnext1 : ek.next_index = none := hnext
      have hcore : (remove_core s id ek).2 =
          ⟨((s.items.set pl
              { ((s.items[pl]?).getD Entry.default) with next_index := none }).set id.index
              ⟨(((((s.items.set pl
                  { ((s.items[pl]?).getD Entry.default) with next_index := none })[id.index]?).getD
                    Entry.default).generation) + 1) % 256, none, none, none⟩),
            s.first_occupied⟩ := by
        unfold remove_core
        simp only [hprev1, hnext1, if_neg hfne]
      rw [hcore]
      set items1 := s.items.set pl
          { ((s.items[pl]?).getD Entry.default) with next_index := none } with hitems1
      set items3 := items1.set id.index
          ⟨((((items1[id.index]?).getD Entry.default).generation) + 1) % 256,
            none, none, none⟩ with hitems3
      have hk1lt : id.index < items1.length := by
        rw [hitems1, List.length_set]
        exact hklt
      have hocc1eq : ∀ i, occAt items1 i = occAt s.items i := fun i =>
        occAt_set_keep
          (e := { ((s.items[pl]?).getD Entry.default) with next_index := none }) rfl i
      have hocc : occupiedIndices items3 = (A2 ++ [pl]) ++ [] := by
        apply hera
        · rw [hitems3, List.length_set, hitems1, List.length_set]
        · rw [hitems3, occAt_set_self _ hk1lt]
          rfl
        · intro i hi
          rw [hitems3, occAt_set_ne _ (fun hh => hi hh.symm), hocc1eq i]
      show chainSeg items3 none s.first_occupied (occupiedIndices items3)
          (endPrev none (occupiedIndices items3), none) = true
      rw [hocc, List.append_nil]
      have hpl3 : items3[pl]? = (s.items[pl]?).map
          (fun e0 => { e0 with next_index := none }) := by
        rw [hitems3, List.getElem?_set_ne hkpl, hitems1,
          List.getElem?_set_eq_of_lt _ hpllt, hgepl]
        rfl
      apply chainSeg_retarget hsplit.1 hpl3
      intro a ha
      have hpla : pl ≠ a := fun hh => hplA2 (hh ▸ ha)
      have hka : id.index ≠ a := fun hh =>
        hkA (hh ▸ List.mem_append_left _ ha)
      rw [hitems3, List.getElem?_set_ne hka, hitems1, List.getElem?_set_ne hpla]
    · -- removing an interior element: pl links to b
      have hnext1 : ek.next_index = some b := hnext
      have hbk : b ≠ id.index := fun hh => hkB (hh ▸ List.mem_cons_self _ _)
      have hkb : id.index ≠ b := Ne.symm hbk
      have hblt : b < s.items.length := hmem b (List.mem_append_right _ (by simp))
      have hbB' : b ∉ B' :=
        (List.nodup_cons.mp
          (List.nodup_cons.mp (List.nodup_append.mp hLn).2.1).2).1
      have hplb : pl ≠ b := fun hh =>
        hABdisj (List.mem_append_right _ (List.mem_cons_self _ _))
          (by rw [hh]; exact List.mem_cons_of_mem _ (List.mem_cons_self _ _))
      have hbpl : b ≠ pl := Ne.symm hplb
      have hcore : (remove_core s id ek).2 =
          ⟨(((s.items.set pl
              { ((s.items[pl]?).getD Entry.default) with next_index := some b }).set b
              { (((s.items.set pl
                  { ((s.items[pl]?).getD Entry.default) with next_index := some b })[b]?).getD
                    Entry.default) with previous_index := some pl }).set id.index
              ⟨((((((s.items.set pl
                  { ((s.items[pl]?).getD Entry.default) with next_index := some b }).set b
                  { (((s.items.set pl
                      { ((s.items[pl]?).getD Entry.default) with next_index := some b })[b]?).getD
                        Entry.default) with previous_index := some pl })[id.index]?).getD
                    Entry.default).generation) + 1) % 256, none, none, none⟩),
            s.first_occupied⟩ := by
        unfold remove_core
        simp only [hprev1, hnext1, if_neg hfne]
      rw [hcore]
      set items1 := s.items.set pl
          { ((s.items[pl]?).getD Entry.default) with next_index := some b } with hitems1
      set items2 := items1.set b
          { ((items1[b]?).getD Entry.default) with previous_index := some pl } with hitems2
      set items3 := items2.set id.index
          ⟨((((items2[id.index]?).getD Entry.default).generation) + 1) % 256,
            none, none, none⟩ with hitems3
      rcases chainSeg_cons_iff.mp htailk with ⟨eb, hcb, hgeb, hprevb, htailb⟩
      have hk2lt : id.index < items2.length := by
        rw [hitems2, List.length_set, hitems1, List.length_set]
        exact hklt
      have hb1lt : b < items1.length := by
        rw [hitems1, List.length_set]
        exact hblt
      have hitems1b : items1[b]? = some eb := by
        rw [hitems1, List.getElem?_set_ne hplb, hgeb]
      have hocc2eq : ∀ i, occAt items2 i = occAt s.items i := fun i => by
        rw [hitems2]
        rw [occAt_set_keep
          (e := { ((items1[b]?).getD Entry.default) with previous_index := some pl }) rfl i]
        rw [hitems1]
        rw [occAt_set_keep
          (e := { ((s.items[pl]?).getD Entry.default) with next_index := some b }) rfl i]
      have hocc : occupiedIndices items3 = (A2 ++ [pl]) ++ b :: B' := by
        apply hera
        · rw [hitems3, List.length_set, hitems2, List.length_set, hitems1, List.length_set]
        · rw [hitems3, occAt_set_self _ hk2lt]
          rfl
        · intro i hi
          rw [hitems3, occAt_set_ne _ (fun hh => hi hh.symm), hocc2eq i]
      show chainSeg items3 none s.first_occupied (occupiedIndices items3)
          (endPrev none (occupiedIndices items3), none) = true
      rw [hocc]
      have hpl3 : items3[pl]? = (s.items[pl]?).map
          (fun e0 => { e0 with next_index := some b }) := by
        rw [hitems3, List.getElem?_set_ne hkpl, hitems2, List.getElem?_set_ne hbpl,
          hitems1, List.getElem?_set_eq_of_lt _ hpllt, hgepl]
        rfl
      have hApart : chainSeg items3 none s.first_occupied (A2 ++ [pl])
          (endPrev none (A2 ++ [pl]), some b) = true := by
        apply chainSeg_retarget hsplit.1 hpl3
        intro a ha
        have hpla : pl ≠ a := fun hh => hplA2 (hh ▸ ha)
        have hba : b ≠ a := fun hh =>
          hABdisj (List.mem_append_left _ (hh ▸ ha))
            (List.mem_cons_of_mem _ (List.mem_cons_self _ _))
        have hka : id.index ≠ a := fun hh =>
          hkA (hh ▸ List.mem_append_left _ ha)
        rw [hitems3, List.getElem?_set_ne hka, hitems2, List.getElem?_set_ne hba,
          hitems1, List.getElem?_set_ne hpla]
      have hold1 : chainSeg s.items (some id.index) ((b :: B').head?) (b :: B')
          (endPrev none ((A2 ++ [pl]) ++ id.index :: b :: B'), none) = true := by
        show chainSeg s.items (some id.index) (some b) _ _ = true
        rw [← hnext1]
        exact htailk
      have hshift : chainSeg items3 (some pl) ((b :: B').head?) (b :: B')
          (endPrev (some pl) (b :: B'), none) = true := by
        apply chainSeg_shift hold1
        · intro b0 B0 heq
          injection heq with h1 h2
          subst h1
          have hb2 : items3[b]? = some { eb with previous_index := some pl } := by
            rw [hitems3, List.getElem?_set_ne hkb, hitems2,
              List.getElem?_set_eq_of_lt _ hb1lt, hitems1b]
            rfl
          rw [hb2, hgeb]
          rfl
        · intro a ha
          have haB' : a ∈ B' := by simpa using ha
          have hba : b ≠ a := fun hh => hbB' (hh ▸ haB')
          have hka : id.index ≠ a := fun hh =>
            hkB (hh ▸ List.mem_cons_of_mem _ haB')
          have hpla : pl ≠ a := fun hh =>
            hABdisj (List.mem_append_right _ (List.mem_cons_self _ _))
              (by rw [hh]; exact List.mem_cons_of_mem _ (List.mem_cons_of_mem _ haB'))
          rw [hitems3, List.getElem?_set_ne hka, hitems2, List.getElem?_set_ne hba,
            hitems1, List.getElem?_set_ne hpla]
      have hE : endPrev none ((A2 ++ [pl]) ++ b :: B')
          = endPrev (some pl) (b :: B') := by
        rw [endPrev_append, endPrev_concat]
      rw [hE]
      refine chainSeg_append_of ?_ hshift
      rw [← endPrev_concat none A2 pl]
      exact hApart

lemma scanPairs_def {T : Type} (items : List (Entry T)) :
    scanPairs items = (List.range items.length).filterMap (pairAt items) := rfl

lemma pairAt_of_unocc {T : Type} {items : List (Entry T)} {i : Nat}
    (h : occAt items i = false) : pairAt items i = none := by
  unfold pairAt
  rcases hg : items[i]? with _ | e
  · rfl
  · rw [occAt_of_get? hg] at h
    rcases hi : e.item with _ | v
    · show Option.map _ e.item = none
      rw [hi]
      rfl
    · rw [hi] at h
      exact absurd h (by simp)

lemma filterMap_filter_eq {α β : Type} (p : α → Bool) (f : α → Option β) :
    ∀ (l : List α), (∀ a ∈ l, p a = false → f a = none) →
      (l.filter p).filterMap f = l.filterMap f
  | [], _ => rfl
  | a :: l, h => by
    rw [List.filter_cons]
    by_cases hp : p a
    · rw [if_pos hp, List.filterMap_cons, List.filterMap_cons,
        filterMap_filter_eq p f l (fun x hx => h x (List.mem_cons_of_mem _ hx))]
    · have hpa : p a = false := by
        rcases hb : p a with _ | _
        · rfl
        · exact absurd hb hp
      rw [if_neg hp, List.filterMap_cons,
        h a (List.mem_cons_self _ _) hpa,
        filterMap_filter_eq p f l (fun x hx => h x (List.mem_cons_of_mem _ hx))]

lemma scanPairs_eq_filterMap {T : Type} (items : List (Entry T)) :
    scanPairs items = (occupiedIndices items).filterMap (pairAt items) := by
  rw [scanPairs_def]
  unfold occupiedIndices
  rw [filterMap_filter_eq (occAt items) (pairAt items) (List.range items.length)
    (fun a _ ha => pairAt_of_unocc ha)]

lemma iterFrom_of_chain {T : Type} {items : List (Entry T)} :
    ∀ {L : List Nat} {p c q : Option Nat} {fuel : Nat},
      chainSeg items p c L (q, none) = true →
      (∀ a ∈ L, occAt items a = true) →
      L.length ≤ fuel →
      iterFrom items fuel c = L.filterMap (pairAt items)
  | [], p, c, q, fuel, h, _, _ => by
    rcases chainSeg_nil_iff.mp h with ⟨_, hc⟩
    subst hc
    rcases fuel with _ | f
    · rfl
    · rfl
  | j :: rest, p, c, q, fuel, h, hocc, hfuel => by
    rcases chainSeg_cons_iff.mp h with ⟨e, hc, hg, hp, htail⟩
    subst hc
    rcases fuel with _ | f
    · exact absurd hfuel (by simp)
    · have hj : occAt items j = true := hocc j (List.mem_cons_self _ _)
      rw [occAt_of_get? hg] at hj
      have hex : ∃ v0, e.item = some v0 := Option.isSome_iff_exists.mp hj
      obtain ⟨v, hv⟩ := hex
      have hstep : iterFrom items (f + 1) (some j)
          = (⟨j, e.generation⟩, v) :: iterFrom items f e.next_index := by
        show (match items[j]? with
          | none => ([] : List (Id × T))
          | some e0 =>
            match e0.item with
            | none => ([] : List (Id × T))
            | some v0 => ((⟨j, e0.generation⟩ : Id), v0) :: iterFrom items f e0.next_index) = _
        rw [hg]
        show (match e.item with
          | none => ([] : List (Id × T))
          | some v0 => ((⟨j, e.generation⟩ : Id), v0) :: iterFrom items f e.next_index) = _
        rw [hv]
      have hpj : pairAt items j = some (⟨j, e.generation⟩, v) := by
        unfold pairAt
        rw [hg]
        show Option.map _ e.item = _
        rw [hv]
        rfl
      rw [hstep, List.filterMap_cons, hpj,
        iterFrom_of_chain htail (fun a ha => hocc a (List.mem_cons_of_mem _ ha))
          (Nat.le_of_succ_le_succ hfuel)]

lemma iter_eq_filterMap_of_inv {T : Type} {s : SparseSlot T} (hinv : Inv s) :
    s.iter = (occupiedIndices s.items).filterMap (pairAt s.items) := by
  unfold SparseSlot.iter
  exact iterFrom_of_chain hinv
    (fun a ha => (mem_occupiedIndices.mp ha).2)
    (occupiedIndices_length_le s.items)

lemma iter_eq_scan_of_inv {T : Type} {s : SparseSlot T} (hinv : Inv s) :
    s.iter = scanPairs s.items := by
  rw [iter_eq_filterMap_of_inv hinv, scanPairs_eq_filterMap]

lemma map_index_filterMap {T : Type} {items : List (Entry T)} :
    ∀ {L : List Nat}, (∀ a ∈ L, occAt items a = true) →
      (L.filterMap (pairAt items)).map (fun pr => pr.1.index) = L
  | [], _ => rfl
  | a :: L, h => by
    have ha := h a (List.mem_cons_self _ _)
    rcases hg : items[a]? with _ | e
    · simp [occAt, hg] at ha
    · have hv : ∃ v, e.item = some v := by
        rw [occAt_of_get? hg] at ha
        exact Option.isSome_iff_exists.mp ha
      obtain ⟨v, hv⟩ := hv
      have hpa : pairAt items a = some (⟨a, e.generation⟩, v) := by
        unfold pairAt
        rw [hg]
        show Option.map _ e.item = _
        rw [hv]
        rfl
      rw [List.filterMap_cons, hpa, List.map_cons,
        map_index_filterMap (fun x hx => h x (List.mem_cons_of_mem _ hx))]

lemma inv_new {T : Type} (c : Nat) : Inv (SparseSlot.new c : SparseSlot T) := by
  have h1 : occupiedIndices (List.replicate c (Entry.default : Entry T)) = [] := by
    unfold occupiedIndices
    apply List.filter_eq_nil.mpr
    intro a _
    rw [occAt_replicate]
    simp
  show chainSeg _ none none (occupiedIndices (List.replicate c (Entry.default : Entry T)))
      (endPrev none (occupiedIndices (List.replicate c (Entry.default : Entry T))), none) = true
  rw [h1]
  exact chainSeg_nil_iff.mpr ⟨rfl, rfl⟩

lemma occAt_clear {T : Type} (s : SparseSlot T) (i : Nat) :
    occAt (s.clear).items i = false := by
  unfold occAt SparseSlot.clear
  rw [List.getElem?_map]
  rcases hg : s.items[i]? with _ | e
  · rfl
  · show (if e.item.isSome = true
        then (⟨(e.generation + 1) % 256, none, none, none⟩ : Entry T)
        else e).item.isSome = false
    by_cases hb : e.item.isSome = true
    · rw [if_pos hb]
      rfl
    · rw [if_neg hb]
      rcases hq : e.item.isSome with _ | _
      · rfl
      · exact absurd hq hb

lemma occupiedIndices_clear {T : Type} (s : SparseSlot T) :
    occupiedIndices (s.clear).items = [] := by
  unfold occupiedIndices
  apply List.filter_eq_nil.mpr
  intro a _
  rw [occAt_clear]
  simp

lemma inv_clear {T : Type} (s : SparseSlot T) : Inv (s.clear) := by
  show chainSeg _ none (s.clear).first_occupied (occupiedIndices (s.clear).items)
      (endPrev none (occupiedIndices (s.clear).items), none) = true
  rw [occupiedIndices_clear]
  exact chainSeg_nil_iff.mpr ⟨rfl, rfl⟩

/-- The containers reachable from a fresh one by any sequence of
(successful) insertions and removals. -/

lemma inv_of_reachable {T : Type} {s : SparseSlot T} (h : Reachable s) : Inv s := by
  induction h with
  | new c => exact inv_new c
  | set _ hstep ih => exact inv_try_set ih hstep
  | rem _ hstep ih => exact inv_remove ih hstep

/-- Remove a list of identifiers one after the other (a successful step
continues from the new state; a failed lookup leaves the state as is). -/

lemma filterMap_congr_own {α β : Type} (f g : α → Option β) :
    ∀ (l : List α), (∀ a ∈ l, f a = g a) → l.filterMap f = l.filterMap g
  | [], _ => rfl
  | a :: l, h => by
    rw [List.filterMap_cons, List.filterMap_cons, h a (List.mem_cons_self _ _),
      filterMap_congr_own f g l (fun x hx => h x (List.mem_cons_of_mem _ hx))]

lemma clear_eq_removeSeq_aux {T : Type} :
    ∀ (n : Nat) (s : SparseSlot T), Inv s → (occupiedIndices s.items).length = n →
      removeSeq s (s.iter.map Prod.fst) = s.clear := by
  intro n
  induction n using Nat.strong_induction_on with
  | _ n ih =>
    intro s hinv hlen
    rcases hL : occupiedIndices s.items with _ | ⟨k, L'⟩
    · -- nothing occupied: the sequence is empty and clear is the identity
      have hiter : s.iter = [] := by
        rw [iter_eq_filterMap_of_inv hinv, hL]
        rfl
      rw [hiter]
      show s = s.clear
      have hfirst : s.first_occupied = none := by
        have h2 : chainSeg s.items none s.first_occupied (occupiedIndices s.items)
            (endPrev none (occupiedIndices s.items), none) = true := hinv
        rw [hL] at h2
        exact (chainSeg_nil_iff.mp h2).2
      have hitems : s.items.map (fun e =>
          if e.item.isSome then ⟨(e.generation + 1) % 256, none, none, none⟩ else e)
          = s.items := by
        apply List.ext_getElem?
        intro i
        rw [List.getElem?_map]
        rcases hg : s.items[i]? with _ | e
        · rfl
        · obtain ⟨hlt, -⟩ := List.getElem?_eq_some.mp hg
          have hocc : ¬ occAt s.items i = true := by
            intro hb
            have hmem2 : i ∈ occupiedIndices s.items := mem_occupiedIndices.mpr ⟨hlt, hb⟩
            rw [hL] at hmem2
            exact absurd hmem2 (List.not_mem_nil i)
          rw [occAt_of_get? hg] at hocc
          show some (if e.item.isSome = true then _ else e) = some e
          rw [if_neg hocc]
      show (⟨s.items, s.first_occupied⟩ : SparseSlot T)
          = ⟨s.items.map _, none⟩
      rw [hitems, hfirst]
    · -- remove the head k, then recurse
      have hchain2 : chainSeg s.items none s.first_occupied (k :: L')
          (endPrev none (k :: L'), none) = true := by
        have h2 : chainSeg s.items none s.first_occupied (occupiedIndices s.items)
            (endPrev none (occupiedIndices s.items), none) = true := hinv
        rw [hL] at h2
        exact h2
      rcases chainSeg_cons_iff.mp hchain2 with ⟨e, hcfirst, hgek, hprevk, htailk⟩
      have hkmem : k ∈ occupiedIndices s.items := by
        rw [hL]
        exact List.mem_cons_self _ _
      obtain ⟨hklt, hkocc⟩ := mem_occupiedIndices.mp hkmem
      have hsome : e.item.isSome = true := by
        rw [occAt_of_get? hgek] at hkocc
        exact hkocc
      obtain ⟨v, hv⟩ : ∃ v0, e.item = some v0 := Option.isSome_iff_exists.mp hsome
      have hLn2 : (k :: L').Nodup := hL ▸ occupiedIndices_nodup s.items
      have hkL' : k ∉ L' := (List.nodup_cons.mp hLn2).1
      have hremove : s.remove ⟨k, e.generation⟩
          = Except.ok (remove_core s ⟨k, e.generation⟩ e) :=
        remove_eq_ok_of hgek rfl hsome
      have hinv1 : Inv (remove_core s ⟨k, e.generation⟩ e).2 :=
        inv_remove hinv hremove
      have hnext : e.next_index = L'.head? := by
        rcases L' with _ | ⟨b, L''⟩
        · exact (chainSeg_nil_iff.mp htailk).2
        · exact chainSeg_head_cursor htailk
      -- the iterator of s
      have hpk : pairAt s.items k = some (⟨k, e.generation⟩, v) := by
        unfold pairAt
        rw [hgek]
        show Option.map _ e.item = _
        rw [hv]
        rfl
      have hiter : s.iter = (⟨k, e.generation⟩, v) :: L'.filterMap (pairAt s.items) := by
        rw [iter_eq_filterMap_of_inv hinv, hL, List.filterMap_cons, hpk]
      rw [hiter, List.map_cons]
      show (match s.remove ⟨k, e.generation⟩ with
        | Except.ok r => removeSeq r.2 ((L'.filterMap (pairAt s.items)).map Prod.fst)
        | Except.error _ => s) = s.clear
      rw [hremove]
      show removeSeq (remove_core s ⟨k, e.generation⟩ e).2
          ((L'.filterMap (pairAt s.items)).map Prod.fst) = s.clear
      set s1 := (remove_core s ⟨k, e.generation⟩ e).2 with hs1
      -- facts about s1 per shape of L'
      rcases L' with _ | ⟨b, L''⟩
      · -- k was the only entry
        have hnext1 : e.next_index = none := hnext
        have hcore : s1 = ⟨s.items.set k
            ⟨(((s.items[k]?).getD Entry.default).generation + 1) % 256,
              none, none, none⟩, none⟩ := by
          rw [hs1]
          unfold remove_core
          simp only [hprevk, hnext1, if_pos hcfirst]
        have hs1items : s1.items = s.items.set k
            ⟨(((s.items[k]?).getD Entry.default).generation + 1) % 256,
              none, none, none⟩ := by
          rw [hcore]
        have ha1 : s1.items.length = s.items.length := by
          rw [hs1items]
          exact List.length_set _ _ _
        have ha2 : occupiedIndices s.items = [] ++ k :: [] := by
          rw [hL]
          rfl
        have ha3 : occAt s1.items k = false := by
          rw [hs1items, occAt_set_self _ hklt]
          rfl
        have ha4 : ∀ i, i ≠ k → occAt s1.items i = occAt s.items i := fun i hi => by
          rw [hs1items]
          exact occAt_set_ne _ (fun hh => hi hh.symm)
        have hocc1 : occupiedIndices s1.items = ([] : List Nat) ++ [] :=
          occupiedIndices_eraseAt ha1 ha2 ha3 ha4
        have hiter1 : s1.iter = [] := by
          rw [iter_eq_filterMap_of_inv hinv1, hocc1]
          rfl
        have hstep := ih 0 (by rw [← hlen, hL]; simp) s1 hinv1 (by rw [hocc1]; rfl)
        rw [hiter1] at hstep
        simp only [List.filterMap_nil, List.map_nil] at hstep ⊢
        rw [hstep]
        -- clear s1 = clear s
        show (⟨s1.items.map _, none⟩ : SparseSlot T) = ⟨s.items.map _, none⟩
        have hitems : s1.items.map (fun e0 =>
            if e0.item.isSome then ⟨(e0.generation + 1) % 256, none, none, none⟩ else e0)
            = s.items.map (fun e0 =>
            if e0.item.isSome then ⟨(e0.generation + 1) % 256, none, none, none⟩ else e0) := by
          apply List.ext_getElem?
          intro i
          rw [List.getElem?_map, List.getElem?_map, hcore]
          by_cases hik : i = k
          · subst hik
            rw [List.getElem?_set_eq_of_lt _ hklt, hgek]
            show some _ = some (if e.item.isSome = true then _ else e)
            rw [if_pos hsome]
            rfl
          · rw [List.getElem?_set_ne (fun hh => hik hh.symm)]
        rw [hitems]
      · -- k had a successor b
        have hnext1 : e.next_index = some b := hnext
        rcases chainSeg_cons_iff.mp htailk with ⟨eb, hcb, hgeb, hprevb, htailb⟩
        have hbmem : b ∈ occupiedIndices s.items := by
          rw [hL]
          exact List.mem_cons_of_mem _ (List.mem_cons_self _ _)
        obtain ⟨hblt, hbocc⟩ := mem_occupiedIndices.mp hbmem
        have hbk : b ≠ k := fun hh => hkL' (hh ▸ List.mem_cons_self _ _)
        have hkb : k ≠ b := Ne.symm hbk
        have hbL'' : b ∉ L'' := (List.nodup_cons.mp (List.nodup_cons.mp hLn2).2).1
        have hebsome : eb.item.isSome = true := by
          rw [occAt_of_get? hgeb] at hbocc
          exact hbocc
        obtain ⟨vb, hvb⟩ : ∃ v0, eb.item = some v0 := Option.isSome_iff_exists.mp hebsome
        have hcore : s1 = ⟨(s.items.set b
            { ((s.items[b]?).getD Entry.default) with previous_index := none }).set k
            ⟨((((s.items.set b
                { ((s.items[b]?).getD Entry.default) with previous_index := none })[k]?).getD
                  Entry.default).generation + 1) % 256, none, none, none⟩,
            some b⟩ := by
          rw [hs1]
          unfold remove_core
          simp only [hprevk, hnext1, if_pos hcfirst]
        have hb1lt : b < (s.items.set b
            { ((s.items[b]?).getD Entry.default) with previous_index := none }).length := by
          rw [List.length_set]
          exact hblt
        have hk1lt : k < (s.items.set b
            { ((s.items[b]?).getD Entry.default) with previous_index := none }).length := by
          rw [List.length_set]
          exact hklt
        have hs1b : s1.items[b]? = some { eb with previous_index := none } := by
          rw [hcore]
          rw [List.getElem?_set_ne hkb, List.getElem?_set_eq_of_lt _ hblt, hgeb]
          rfl
        have hs1k : s1.items[k]? = some ⟨(e.generation + 1) % 256, none, none, none⟩ := by
          rw [hcore]
          rw [List.getElem?_set_eq_of_lt _ hk1lt, List.getElem?_set_ne hbk, hgek]
          rfl
        have hs1other : ∀ i, i ≠ k → i ≠ b → s1.items[i]? = s.items[i]? := by
          intro i h1 h2
          rw [hcore, List.getElem?_set_ne (fun hh => h1 hh.symm),
            List.getElem?_set_ne (fun hh => h2 hh.symm)]
        have hs1items : s1.items = (s.items.set b
            { ((s.items[b]?).getD Entry.default) with previous_index := none }).set k
            ⟨((((s.items.set b
                { ((s.items[b]?).getD Entry.default) with previous_index := none })[k]?).getD
                  Entry.default).generation + 1) % 256, none, none, none⟩ := by
          rw [hcore]
        have ha1 : s1.items.length = s.items.length := by
          rw [hs1items, List.length_set, List.length_set]
        have ha2 : occupiedIndices s.items = [] ++ k :: b :: L'' := by
          rw [hL]
          rfl
        have ha3 : occAt s1.items k = false := by
          rw [hs1items, occAt_set_self _ hk1lt]
          rfl
        have ha4 : ∀ i, i ≠ k → occAt s1.items i = occAt s.items i := fun i hi => by
          by_cases hib : i = b
          · subst hib
            rw [occAt_of_get? hs1b, occAt_of_get? hgeb]
          · unfold occAt
            rw [hs1other i hi hib]
        have hocc1 : occupiedIndices s1.items = ([] : List Nat) ++ b :: L'' :=
          occupiedIndices_eraseAt ha1 ha2 ha3 ha4
        have hiter1 : s1.iter = (b :: L'').filterMap (pairAt s.items) := by
          rw [iter_eq_filterMap_of_inv hinv1, hocc1, List.nil_append]
          apply filterMap_congr_own
          intro a ha
          by_cases hab : a = b
          · subst hab
            unfold pairAt
            rw [hs1b, hgeb]
          · unfold pairAt
            rw [hs1other a (fun hh => hkL' (hh ▸ ha)) hab]
        have hlen1 : (occupiedIndices s1.items).length = L''.length + 1 := by
          rw [hocc1]
          rfl
        have hlt1 : L''.length + 1 < n := by
          have h6 := hlen
          rw [hL] at h6
          simp only [List.length_cons] at h6
          omega
        have hstep := ih (L''.length + 1) hlt1 s1 hinv1 hlen1
        rw [hiter1] at hstep
        rw [hstep]
        show (⟨s1.items.map _, none⟩ : SparseSlot T) = ⟨s.items.map _, none⟩
        have hitems : s1.items.map (fun e0 =>
            if e0.item.isSome then ⟨(e0.generation + 1) % 256, none, none, none⟩ else e0)
            = s.items.map (fun e0 =>
            if e0.item.isSome then ⟨(e0.generation + 1) % 256, none, none, none⟩ else e0) := by
          apply List.ext_getElem?
          intro i
          rw [List.getElem?_map, List.getElem?_map]
          by_cases hik : i = k
          · subst hik
            rw [hs1k, hgek]
            show some _ = some (if e.item.isSome = true then _ else e)
            rw [if_pos hsome]
            rfl
          · by_cases hib : i = b
            · subst hib
              rw [hs1b, hgeb]
              show some (if eb.item.isSome = true then _ else _)
                  = some (if eb.item.isSome = true then _ else _)
              simp only [if_pos hebsome]
            · rw [hs1other i hik hib]
        rw [hitems]

/-- The observation a slot offers to `get`-like operations: its generation
and optional value (link fields excluded). -/

lemma genItem_set_keep {T : Type} (items : List (Entry T)) (p : Nat) (f : Entry T)
    (he : f.item = ((items[p]?).getD Entry.default).item)
    (hg : f.generation = ((items[p]?).getD Entry.default).generation) :
    ∀ i : Nat, ((items.set p f)[i]?).map genItem = (items[i]?).map genItem := by
  intro i
  by_cases hpi : p = i
  · subst hpi
    by_cases hp : p < items.length
    · have h0 : items[p]? = some items[p] := List.getElem?_eq_getElem hp
      rw [List.getElem?_set_eq_of_lt _ hp, h0]
      rw [h0] at he hg
      show some (f.generation, f.item) = some ((items[p]).generation, (items[p]).item)
      rw [he, hg]
      rfl
    · have hle : items.length ≤ p := Nat.le_of_not_lt hp
      have h1 : (items.set p f).length ≤ p := by
        simpa [List.length_set] using hle
      rw [List.getElem?_eq_none h1, List.getElem?_eq_none hle]
  · rw [List.getElem?_set_ne hpi]

lemma genItem_set_prev {T : Type} (items : List (Entry T)) (p : Nat) (x : Option Nat) (i : Nat) :
    ((items.set p { ((items[p]?).getD Entry.default) with previous_index := x })[i]?).map genItem
      = (items[i]?).map genItem :=
  genItem_set_keep items p
    { ((items[p]?).getD Entry.default) with previous_index := x } rfl rfl i

lemma genItem_set_next {T : Type} (items : List (Entry T)) (p : Nat) (x : Option Nat) (i : Nat) :
    ((items.set p { ((items[p]?).getD Entry.default) with next_index := x })[i]?).map genItem
      = (items[i]?).map genItem :=
  genItem_set_keep items p
    { ((items[p]?).getD Entry.default) with next_index := x } rfl rfl i

lemma try_set_core_at {T : Type} (s : SparseSlot T) (id : Id) (v : T)
    (hidx : id.index < s.items.length) :
    (((try_set_core s id v).items[id.index]?).map genItem)
      = some (id.generation, some v) := by
  unfold try_set_core
  rcases hpn : spliceLoop s.items id.index s.items.length none s.first_occupied
    with ⟨pr, nx⟩
  have h1 : ((s.items.set id.index
      (⟨id.generation, some v, nx, pr⟩ : Entry T))[id.index]?).map genItem
      = some (id.generation, some v) := by
    rw [List.getElem?_set_eq_of_lt _ hidx]
    rfl
  rcases pr with _ | p <;> rcases nx with _ | n
  · exact h1
  · show ((((s.items.set id.index ⟨id.generation, some v, some n, none⟩).set n
        { (((s.items.set id.index ⟨id.generation, some v, some n, none⟩)[n]?).getD Entry.default) with
            previous_index := some id.index })[id.index]?).map genItem) = _
    rw [genItem_set_prev]
    exact h1
  · show ((((s.items.set id.index ⟨id.generation, some v, none, some p⟩).set p
        { (((s.items.set id.index ⟨id.generation, some v, none, some p⟩)[p]?).getD Entry.default) with
            next_index := some id.index })[id.index]?).map genItem) = _
    rw [genItem_set_next]
    exact h1
  · show (((((s.items.set id.index ⟨id.generation, some v, some n, some p⟩).set p
        { (((s.items.set id.index ⟨id.generation, some v, some n, some p⟩)[p]?).getD Entry.default) with
            next_index := some id.index }).set n
        { ((((s.items.set id.index ⟨id.generation, some v, some n, some p⟩).set p
            { (((s.items.set id.index ⟨id.generation, some v, some n, some p⟩)[p]?).getD Entry.default) with
                next_index := some id.index })[n]?).getD Entry.default) with
            previous_index := some id.index })[id.index]?).map genItem) = _
    rw [genItem_set_prev, genItem_set_next]
    exact h1

lemma map_genItem_elim {T : Type} {items : List (Entry T)} {i : Nat} {g : Nat}
    {o : Option T} (h : (items[i]?).map genItem = some (g, o)) :
    ∃ f, items[i]? = some f ∧ f.generation = g ∧ f.item = o := by
  rcases hx : items[i]? with _ | f
  · rw [hx] at h
    exact absurd h (by simp)
  · rw [hx] at h
    have h2 : genItem f = (g, o) := by injection h
    exact ⟨f, rfl, congrArg Prod.fst h2, congrArg Prod.snd h2⟩

lemma remove_core_at {T : Type} (s : SparseSlot T) (id : Id) (e : Entry T)
    (hge : s.items[id.index]? = some e) :
    (remove_core s id e).1 = e.item ∧
    (((remove_core s id e).2.items[id.index]?).map genItem)
      = some ((e.generation + 1) % 256, none) := by
  obtain ⟨hidx, -⟩ := List.getElem?_eq_some.mp hge
  have hmain : ∀ (items2 : List (Entry T)),
      (items2[id.index]?).map genItem = some (genItem e) →
      ((items2[id.index]?).getD Entry.default).item = e.item ∧
      (((items2.set id.index
          (⟨(((items2[id.index]?).getD Entry.default).generation + 1) % 256,
            none, none, none⟩ : Entry T))[id.index]?).map genItem)
        = some ((e.generation + 1) % 256, none) := by
    intro items2 hkeep
    obtain ⟨f, hf, hfg, hfi⟩ := map_genItem_elim hkeep
    have hlen2 : id.index < items2.length := (List.getElem?_eq_some.mp hf).1
    constructor
    · rw [hf]
      exact hfi
    · rw [List.getElem?_set_eq_of_lt _ hlen2, hf]
      show some ((((f.generation + 1) % 256 : Nat), (none : Option T))) = _
      rw [hfg]
  unfold remove_core
  rcases hp : e.previous_index with _ | p <;> rcases hn : e.next_index with _ | n <;>
    simp only [hp, hn]
  · exact hmain s.items (by rw [hge]; rfl)
  · exact hmain _ (by rw [genItem_set_prev, hge]; rfl)
  · exact hmain _ (by rw [genItem_set_next, hge]; rfl)
  · exact hmain _ (by rw [genItem_set_prev, genItem_set_next, hge]; rfl)

lemma len_eq_occLength {T : Type} :
    ∀ (items : List (Entry T)),
      (items.filter (fun e => e.item.isSome)).length
        = ((List.range items.length).filter (occAt items)).length
  | [] => rfl
  | e :: items => by
    have hshift : ∀ i : Nat, occAt (e :: items) (i + 1) = occAt items i := by
      intro i
      unfold occAt
      rw [List.getElem?_cons_succ]
    have h0 : occAt (e :: items) 0 = e.item.isSome := by
      unfold occAt
      rw [List.getElem?_cons_zero]
      rfl
    rw [List.filter_cons]
    rw [show (e :: items).length = items.length + 1 from rfl]
    rw [List.range_succ_eq_map, List.filter_cons, h0]
    rw [List.filter_map]
    have hcomp : (occAt (e :: items) ∘ fun i => i + 1) = occAt items := by
      funext i
      exact hshift i
    rw [hcomp]
    by_cases hb : e.item.isSome = true
    · rw [if_pos hb, if_pos hb]
      simp only [List.length_cons, List.length_map]
      rw [len_eq_occLength items]
    · rw [if_neg hb, if_neg hb]
      simp only [List.length_map]
      exact len_eq_occLength items

lemma inv_first_iff {T : Type} {s : SparseSlot T} (hinv : Inv s) :
    s.first_occupied = none ↔ s.len = 0 := by
  have hlen : s.len = (occupiedIndices s.items).length := len_eq_occLength s.items
  rw [hlen]
  constructor
  · intro hf
    rcases hL : occupiedIndices s.items with _ | ⟨k, L'⟩
    · rfl
    · have h2 : chainSeg s.items none s.first_occupied (occupiedIndices s.items)
          (endPrev none (occupiedIndices s.items), none) = true := hinv
      rw [hL] at h2
      have := chainSeg_head_cursor h2
      rw [hf] at this
      exact absurd this (by simp)
  · intro hl
    have hL : occupiedIndices s.items = [] := List.length_eq_zero.mp hl
    have h2 : chainSeg s.items none s.first_occupied (occupiedIndices s.items)
        (endPrev none (occupiedIndices s.items), none) = true := hinv
    rw [hL] at h2
    exact (chainSeg_nil_iff.mp h2).2

lemma oob_behavior {T : Type} (s : SparseSlot T) (id : Id)
    (h : s.items.length ≤ id.index) :
    s.get id = Except.error () ∧ s.remove id = Except.error () ∧
      s.get_mut id = none := by
  have hnone : s.items[id.index]? = none := List.getElem?_eq_none h
  refine ⟨?_, ?_, ?_⟩
  · unfold SparseSlot.get
    rw [hnone]
  · unfold SparseSlot.remove
    rw [hnone]
  · unfold SparseSlot.get_mut
    rw [hnone]

/-- Claim C1: for every identifier whose index is in range and whose slot is
empty, `try_set` succeeds regardless of whether the identifier's generation
matches the slot's current generation (the mismatch check in the source is
inert), and on success the value is stored with the slot's generation set
to exactly the caller-supplied `id.generation`. -/
theorem C1_try_set_any_generation {T : Type} (s : SparseSlot T) (id : Id) (v : T)
    (hidx : id.index < s.capacity)
    (hemp : ((s.items[id.index]?).getD Entry.default).item = none) :
    s.try_set id v = Except.ok (try_set_core s id v) ∧
    (((try_set_core s id v).items[id.index]?).map genItem)
      = some (id.generation, some v) := by
  have hocc : occAt s.items id.index = false := by
    rw [occAt_eq_getD, hemp]
    rfl
  exact ⟨try_set_eq_ok_of v hidx hocc, try_set_core_at s id v hidx⟩

/-- Witness for C1 at a concrete input: inserting with generation 9 into a
fresh slot whose generation is 0 succeeds and records generation 9. -/
theorem C1_try_set_any_generation_witness :
    ((SparseSlot.new 3 : SparseSlot Nat).try_set ⟨1, 9⟩ 7
        = Except.ok (try_set_core (SparseSlot.new 3) ⟨1, 9⟩ 7) ∧
      (((try_set_core (SparseSlot.new 3 : SparseSlot Nat) ⟨1, 9⟩ 7).items[1]?).map genItem)
        = some (9, some 7)) :=
  C1_try_set_any_generation (SparseSlot.new 3) ⟨1, 9⟩ 7 (by decide) (by decide)

/-- Claim C2 (amended): after `new`, after every successful `try_set`, after
every successful `remove`, and after `clear`, the occupancy-list invariant
`Inv` holds (the doubly linked list rooted at `first_occupied` passes
exactly through the occupied indices in ascending order with mutually
consistent links), and under the invariant `first_occupied` is `none` iff
no slot is occupied.  The original claim also asserted this after each
consumption step of `drain`, which the code violates (see the
counterexample): `drain` never updates `first_occupied` or the link
fields. -/
theorem C2_invariant_preservation {T : Type} :
    (∀ c : Nat, Inv (SparseSlot.new c : SparseSlot T)) ∧
    (∀ (s s' : SparseSlot T) (id : Id) (v : T),
      Inv s → s.try_set id v = Except.ok s' → Inv s') ∧
    (∀ (s s' : SparseSlot T) (id : Id) (r : Option T),
      Inv s → s.remove id = Except.ok (r, s') → Inv s') ∧
    (∀ s : SparseSlot T, Inv s.clear) ∧
    (∀ s : SparseSlot T, Inv s → (s.first_occupied = none ↔ s.len = 0)) :=
  ⟨inv_new, fun _ _ _ _ h1 h2 => inv_try_set h1 h2,
    fun _ _ _ _ h1 h2 => inv_remove h1 h2, inv_clear,
    fun _ h => inv_first_iff h⟩

/-- Witness for C2 at a concrete input: the invariant survives an
insertion into a fresh container. -/
theorem C2_invariant_preservation_witness :
    Inv (⟨[⟨0, some 5, none, none⟩], some 0⟩ : SparseSlot Nat) :=
  C2_invariant_preservation.2.1 (SparseSlot.new 1) _ ⟨0, 0⟩ 5 (by decide) rfl

/-- Counterexample to C2 as stated: after one consumption step of `drain`
on a container holding one entry, `first_occupied` still points at the
drained slot although no slot is occupied, so the claimed invariant fails
after a drain consumption step. -/
theorem C2_drain_step_counterexample :
    (SparseSlot.new 1 : SparseSlot Nat).try_set ⟨0, 0⟩ 5
        = Except.ok ⟨[⟨0, some 5, none, none⟩], some 0⟩ ∧
    ((⟨[⟨0, some 5, none, none⟩], some 0⟩ : SparseSlot Nat).drainTake 1).2.first_occupied
        = some 0 ∧
    ((⟨[⟨0, some 5, none, none⟩], some 0⟩ : SparseSlot Nat).drainTake 1).2.len = 0 ∧
    ¬ Inv ((⟨[⟨0, some 5, none, none⟩], some 0⟩ : SparseSlot Nat).drainTake 1).2 := by
  refine ⟨rfl, rfl, rfl, ?_⟩
  decide

/-- Claim C3: for every container reachable by any sequence of insertions
and removals from a fresh container, `iter` yields exactly the occupied
slots' `(identifier, value)` pairs in strictly ascending index order,
equal to the reference front-to-back scan `scanPairs` of the backing
storage. -/
theorem C3_iter_refines_scan {T : Type} (s : SparseSlot T) (h : Reachable s) :
    s.iter = scanPairs s.items ∧
    List.Pairwise (· < ·) (s.iter.map (fun pr => pr.1.index)) := by
  have hinv := inv_of_reachable h
  refine ⟨iter_eq_scan_of_inv hinv, ?_⟩
  rw [iter_eq_filterMap_of_inv hinv,
    map_index_filterMap (fun a ha => (mem_occupiedIndices.mp ha).2)]
  exact occupiedIndices_sorted s.items

/-- Witness for C3 at a concrete reachable container. -/
theorem C3_iter_refines_scan_witness :
    ((⟨[⟨0, some 5, none, none⟩, ⟨0, none, none, none⟩], some 0⟩ : SparseSlot Nat).iter
        = scanPairs (⟨[⟨0, some 5, none, none⟩, ⟨0, none, none, none⟩], some 0⟩
            : SparseSlot Nat).items) ∧
    List.Pairwise (· < ·)
      (((⟨[⟨0, some 5, none, none⟩, ⟨0, none, none, none⟩], some 0⟩
          : SparseSlot Nat).iter).map (fun pr => pr.1.index)) := by
  have h : (SparseSlot.new 2 : SparseSlot Nat).try_set ⟨0, 0⟩ 5
      = Except.ok (⟨[⟨0, some 5, none, none⟩, ⟨0, none, none, none⟩], some 0⟩
          : SparseSlot Nat) := rfl
  exact C3_iter_refines_scan _ (Reachable.set (Reachable.new 2) h)

/-- Claim C4 evaluated on the code: in Scenario B the third step
`try_set(Id(1,0), 43)` after the removal returns `Ok` (the stale
generation is accepted and written), not `Err` as the claim and the
repository's own `generation_handling` test expect; the subsequent
`try_set(Id(1,1), 43)` then fails with `Occupied` and `get(Id(1,1))`
yields nothing. -/
theorem C4_scenario_b_eval :
    (SparseSlot.new 2 : SparseSlot Nat).try_set ⟨1, 0⟩ 42
        = Except.ok ⟨[⟨0, none, none, none⟩, ⟨0, some 42, none, none⟩], some 1⟩ ∧
    (⟨[⟨0, none, none, none⟩, ⟨0, some 42, none, none⟩], some 1⟩
        : SparseSlot Nat).remove ⟨1, 0⟩
        = Except.ok (some 42, ⟨[⟨0, none, none, none⟩, ⟨1, none, none, none⟩], none⟩) ∧
    (⟨[⟨0, none, none, none⟩, ⟨1, none, none, none⟩], none⟩
        : SparseSlot Nat).try_set ⟨1, 0⟩ 43
        = Except.ok ⟨[⟨0, none, none, none⟩, ⟨0, some 43, none, none⟩], some 1⟩ ∧
    (⟨[⟨0, none, none, none⟩, ⟨0, some 43, none, none⟩], some 1⟩
        : SparseSlot Nat).try_set ⟨1, 1⟩ 43
        = Except.error (.Occupied 1) ∧
    (⟨[⟨0, none, none, none⟩, ⟨0, some 43, none, none⟩], some 1⟩
        : SparseSlot Nat).get ⟨1, 1⟩ = Except.ok none :=
  ⟨rfl, rfl, rfl, rfl, rfl⟩

/-- Claim C5: a successful removal bumps the affected slot's generation by
exactly one, wrapping modulo 2^8, and a successful insertion sets the
slot's generation to exactly the caller-supplied `id.generation`. -/
theorem C5_generation_changes {T : Type} (s : SparseSlot T) (id : Id)
    (hidx : id.index < s.capacity) :
    (∀ (e : Entry T) (v : T) (s' : SparseSlot T),
        s.items[id.index]? = some e → s.remove id = Except.ok (some v, s') →
        (s'.items[id.index]?).map (fun f => f.generation)
          = some ((e.generation + 1) % 256)) ∧
    (∀ (v : T) (s' : SparseSlot T), s.try_set id v = Except.ok s' →
        (s'.items[id.index]?).map (fun f => f.generation) = some id.generation) := by
  constructor
  · intro e v s' hge hrem
    rcases remove_ok_elim hrem with ⟨e2, hge2, hcase⟩
    have he2 : e2 = e := by
      rw [hge] at hge2
      injection hge2 with hh
      exact hh.symm
    subst he2
    rcases hcase with ⟨_, hr, _⟩ | ⟨_, _, hcore⟩
    · exact absurd hr (by simp)
    · have hs' : s' = (remove_core s id e2).2 := congrArg Prod.snd hcore
      subst hs'
      obtain ⟨f, hf, hfg, -⟩ := map_genItem_elim (remove_core_at s id e2 hge2).2
      rw [hf]
      show some f.generation = _
      rw [hfg]
  · intro v s' hset
    rcases try_set_ok_elim hset with ⟨hidx2, -, hs'⟩
    subst hs'
    obtain ⟨f, hf, hfg, -⟩ := map_genItem_elim (try_set_core_at s id v hidx2)
    rw [hf]
    show some f.generation = _
    rw [hfg]

/-- Witness for C5 at concrete inputs: removing a generation-0 entry leaves
generation 1; inserting with generation 3 records generation 3. -/
theorem C5_generation_changes_witness :
    (((⟨[⟨1, none, none, none⟩], none⟩ : SparseSlot Nat).items[(0 : Nat)]?).map
        (fun f => f.generation) = some ((0 + 1) % 256)) ∧
    ((((try_set_core (SparseSlot.new 1 : SparseSlot Nat) ⟨0, 3⟩ 7).items[(0 : Nat)]?).map
        (fun f => f.generation)) = some 3) :=
  ⟨(C5_generation_changes (⟨[⟨0, some 5, none, none⟩], some 0⟩ : SparseSlot Nat)
        ⟨0, 0⟩ (by decide)).1 ⟨0, some 5, none, none⟩ 5
      (⟨[⟨1, none, none, none⟩], none⟩ : SparseSlot Nat) rfl rfl,
    (C5_generation_changes (SparseSlot.new 1 : SparseSlot Nat) ⟨0, 3⟩ (by decide)).2 7
      (try_set_core (SparseSlot.new 1 : SparseSlot Nat) ⟨0, 3⟩ 7) rfl⟩

/-- Claim C6: for an in-range identifier, `remove` of an empty slot or on a
generation mismatch returns nothing and leaves the container entirely
unchanged; `remove` of an occupied slot with a matching generation returns
the stored value, transferring it to the caller. -/
theorem C6_remove_cases {T : Type} (s : SparseSlot T) (id : Id) (e : Entry T)
    (hge : s.items[id.index]? = some e) :
    ((e.generation ≠ id.generation ∨ e.item = none) →
      s.remove id = Except.ok (none, s)) ∧
    (∀ v, e.generation = id.generation → e.item = some v →
      s.remove id = Except.ok (some v, (remove_core s id e).2)) := by
  constructor
  · intro hcase
    apply remove_eq_stale_of hge
    rcases hcase with hg | hi
    · have hb : (e.generation != id.generation) = true := by simpa using hg
      rw [hb]
      rfl
    · rw [hi]
      simp
  · intro v hgen hitem
    have h1 := remove_eq_ok_of hge hgen (by rw [hitem]; rfl)
    rw [h1]
    have h2 := (remove_core_at s id e hge).1
    rw [hitem] at h2
    rw [show remove_core s id e
      = ((remove_core s id e).1, (remove_core s id e).2) from rfl, h2]

/-- Witness for C6 at concrete inputs: a mismatched generation is a no-op,
a matching one yields the stored value. -/
theorem C6_remove_cases_witness :
    ((⟨[⟨5, some 9, none, none⟩], some 0⟩ : SparseSlot Nat).remove ⟨0, 3⟩
        = Except.ok (none, ⟨[⟨5, some 9, none, none⟩], some 0⟩)) ∧
    ((⟨[⟨5, some 9, none, none⟩], some 0⟩ : SparseSlot Nat).remove ⟨0, 5⟩
        = Except.ok (some 9,
            (remove_core (⟨[⟨5, some 9, none, none⟩], some 0⟩ : SparseSlot Nat)
              ⟨0, 5⟩ ⟨5, some 9, none, none⟩).2)) :=
  ⟨(C6_remove_cases (⟨[⟨5, some 9, none, none⟩], some 0⟩ : SparseSlot Nat) ⟨0, 3⟩
      ⟨5, some 9, none, none⟩ rfl).1 (Or.inl (by decide)),
    (C6_remove_cases (⟨[⟨5, some 9, none, none⟩], some 0⟩ : SparseSlot Nat) ⟨0, 5⟩
      ⟨5, some 9, none, none⟩ rfl).2 9 rfl rfl⟩

/-- Claim C7 evaluated on the code: consuming one item of `drain` on a
container holding entries at indices 0 and 1 yields the first pair that
`iter` would have yielded, but afterwards `iter` yields nothing at all
instead of the unconsumed suffix, although the unconsumed entry is still
stored (`len` is 1): `drain` leaves `first_occupied` pointing at the
drained slot and the stale link hides the remaining entry. -/
theorem C7_partial_drain_eval :
    (SparseSlot.new 2 : SparseSlot Nat).try_set ⟨0, 0⟩ 10
        = Except.ok ⟨[⟨0, some 10, none, none⟩, ⟨0, none, none, none⟩], some 0⟩ ∧
    (⟨[⟨0, some 10, none, none⟩, ⟨0, none, none, none⟩], some 0⟩
        : SparseSlot Nat).try_set ⟨1, 0⟩ 11
        = Except.ok ⟨[⟨0, some 10, some 1, none⟩, ⟨0, some 11, none, some 0⟩], some 0⟩ ∧
    (⟨[⟨0, some 10, some 1, none⟩, ⟨0, some 11, none, some 0⟩], some 0⟩
        : SparseSlot Nat).iter = [(⟨0, 0⟩, 10), (⟨1, 0⟩, 11)] ∧
    ((⟨[⟨0, some 10, some 1, none⟩, ⟨0, some 11, none, some 0⟩], some 0⟩
        : SparseSlot Nat).drainTake 1).1 = [(⟨0, 0⟩, 10)] ∧
    ((⟨[⟨0, some 10, some 1, none⟩, ⟨0, some 11, none, some 0⟩], some 0⟩
        : SparseSlot Nat).drainTake 1).2.iter = [] ∧
    ((⟨[⟨0, some 10, some 1, none⟩, ⟨0, some 11, none, some 0⟩], some 0⟩
        : SparseSlot Nat).drainTake 1).2.len = 1 ∧
    ((⟨[⟨0, some 10, some 1, none⟩, ⟨0, some 11, none, some 0⟩], some 0⟩
        : SparseSlot Nat).drainTake 1).2.capacity = 2 :=
  ⟨rfl, rfl, rfl, rfl, rfl, rfl, rfl⟩

/-- Claim C8 (amended): for every identifier whose index is at least the
capacity, `get` and `remove` index the backing storage unchecked for the
caller-chosen index (the access is partial: it panics, modelled as
`Except.error`), while `get_mut` performs a checked lookup and converts the
out-of-range index into the absent result. -/
theorem C8_oob_access {T : Type} (s : SparseSlot T) (id : Id)
    (h : s.capacity ≤ id.index) :
    s.get id = Except.error () ∧ s.remove id = Except.error () ∧
      s.get_mut id = none :=
  oob_behavior s id h

/-- Witness for C8 at a concrete out-of-range identifier. -/
theorem C8_oob_access_witness :
    ((SparseSlot.new 2 : SparseSlot Nat).capacity ≤ 999) ∧
    ((SparseSlot.new 2 : SparseSlot Nat).get ⟨999, 0⟩ = Except.error () ∧
      (SparseSlot.new 2 : SparseSlot Nat).remove ⟨999, 0⟩ = Except.error () ∧
      (SparseSlot.new 2 : SparseSlot Nat).get_mut ⟨999, 0⟩ = none) :=
  ⟨by decide, C8_oob_access _ ⟨999, 0⟩ (by decide)⟩

/-- Counterexample to C8 as stated: `get_mut` does not index the storage
unchecked — at an out-of-range index it returns the absent result instead
of reaching the partial access the claim asserts for it. -/
theorem C8_get_mut_counterexample :
    (SparseSlot.new 2 : SparseSlot Nat).get_mut ⟨999, 0⟩ = none ∧
    (SparseSlot.new 2 : SparseSlot Nat).capacity ≤ 999 :=
  ⟨rfl, by decide⟩

/-- Claim C9: `clear` empties the head pointer and every slot, bumps the
generation of each slot that was occupied by exactly one (wrapping) while
leaving empty slots entirely unchanged, and is equivalent to removing each
occupied slot's current identifier in turn. -/
theorem C9_clear_spec {T : Type} (s : SparseSlot T) (hinv : Inv s) :
    s.clear.first_occupied = none ∧
    (∀ i : Nat, occAt s.clear.items i = false) ∧
    (∀ (i : Nat) (e : Entry T), s.items[i]? = some e →
      s.clear.items[i]? = some (if e.item.isSome
        then ⟨(e.generation + 1) % 256, none, none, none⟩ else e)) ∧
    removeSeq s (s.iter.map Prod.fst) = s.clear := by
  refine ⟨rfl, occAt_clear s, ?_,
    clear_eq_removeSeq_aux (occupiedIndices s.items).length s hinv rfl⟩
  intro i e hg
  show (s.items.map _)[i]? = _
  rw [List.getElem?_map, hg]
  rfl

/-- Witness for C9 at a concrete container with an occupied and an empty
slot. -/
theorem C9_clear_spec_witness :
    ((⟨[⟨2, some 5, none, none⟩, ⟨4, none, none, none⟩], some 0⟩
        : SparseSlot Nat).clear.first_occupied = none) ∧
    (occAt (⟨[⟨2, some 5, none, none⟩, ⟨4, none, none, none⟩], some 0⟩
        : SparseSlot Nat).clear.items 0 = false) ∧
    ((⟨[⟨2, some 5, none, none⟩, ⟨4, none, none, none⟩], some 0⟩
        : SparseSlot Nat).clear.items[(0 : Nat)]? = some ⟨3, none, none, none⟩) ∧
    ((⟨[⟨2, some 5, none, none⟩, ⟨4, none, none, none⟩], some 0⟩
        : SparseSlot Nat).clear.items[(1 : Nat)]? = some ⟨4, none, none, none⟩) ∧
    (removeSeq (⟨[⟨2, some 5, none, none⟩, ⟨4, none, none, none⟩], some 0⟩
          : SparseSlot Nat)
        ((⟨[⟨2, some 5, none, none⟩, ⟨4, none, none, none⟩], some 0⟩
          : SparseSlot Nat).iter.map Prod.fst)
      = (⟨[⟨2, some 5, none, none⟩, ⟨4, none, none, none⟩], some 0⟩
          : SparseSlot Nat).clear) :=
  ⟨(C9_clear_spec _ (by decide)).1,
    (C9_clear_spec _ (by decide)).2.1 0,
    (C9_clear_spec _ (by decide)).2.2.1 0 ⟨2, some 5, none, none⟩ rfl,
    (C9_clear_spec _ (by decide)).2.2.1 1 ⟨4, none, none, none⟩ rfl,
    (C9_clear_spec _ (by decide)).2.2.2⟩

/-- Claim C10: `get_mut` performs a checked lookup, so it is total: every
out-of-range identifier yields `none`, in contrast to `get` and `remove`,
whose unchecked indexing is partial for out-of-range indices. -/
theorem C10_get_mut_total {T : Type} (s : SparseSlot T) (id : Id)
    (h : s.capacity ≤ id.index) :
    s.get_mut id = none ∧ s.get id = Except.error () ∧
      s.remove id = Except.error () := by
  obtain ⟨h1, h2, h3⟩ := oob_behavior s id h
  exact ⟨h3, h1, h2⟩

/-- Witness for C10 at a concrete out-of-range identifier. -/
theorem C10_get_mut_total_witness :
    ((SparseSlot.new 3 : SparseSlot Nat).capacity ≤ 7) ∧
    ((SparseSlot.new 3 : SparseSlot Nat).get_mut ⟨7, 1⟩ = none ∧
      (SparseSlot.new 3 : SparseSlot Nat).get ⟨7, 1⟩ = Except.error () ∧
      (SparseSlot.new 3 : SparseSlot Nat).remove ⟨7, 1⟩ = Except.error ()) :=
  ⟨by decide, C10_get_mut_total _ ⟨7, 1⟩ (by decide)⟩

end SparseSlotLib
